import Mathlib

/-
Verification development for the ecsy entity-component-system runtime core
(PropTypes.js, Entity.js, World.js).  The JavaScript sources are embedded
shallowly: every Entity of the JS heap is a record stored in an explicit
store keyed by an allocation identity (`obj` ids model JS object references),
all mutation methods become pure functions on a `World` state, and JS array
and object-property operations are translated by small helpers that keep the
exact JS semantics (indexOf returning -1, splice with negative start,
property deletion, truthiness of property reads).

Parts of the repository that the claims need but whose sources are not in
the repo snapshot (Query.js, ObjectPool.js, Component.js) are modelled from
the specification; each such definition carries a doc comment starting with
"Modelled from the spec:".
-/

namespace Ecsy


/-! ## JS helpers: object property maps and array primitives -/

/-- JS object property read: first binding for the key, if any. -/
def alookup {α β : Type} [DecidableEq α] : List (α × β) → α → Option β
  | [], _ => none
  | (k, v) :: t, a => if k = a then some v else alookup t a

/-- JS object property write `o[k] = v`: replace the binding or append it. -/
def aset {α β : Type} [DecidableEq α] : List (α × β) → α → β → List (α × β)
  | [], a, b => [(a, b)]
  | (k, v) :: t, a, b => if k = a then (a, b) :: t else (k, v) :: aset t a b

/-- JS `delete o[k]`: drop the binding for the key. -/
def aremove {α β : Type} [DecidableEq α] : List (α × β) → α → List (α × β)
  | [], _ => []
  | (k, v) :: t, a => if k = a then t else (k, v) :: aremove t a

/-- JS `Array.prototype.indexOf`: index of the first occurrence, or -1. -/
def jsIndexOf {α : Type} [DecidableEq α] : List α → α → Int
  | [], _ => -1
  | x :: t, a =>
    if x = a then 0
    else
      let r := jsIndexOf t a
      if r = -1 then -1 else r + 1

/-- JS `arr.splice(start, 1)`: a negative start counts from the end
(clamped at 0), and nothing is removed when the start is past the end. -/
def jsSplice1 {α : Type} (l : List α) (i : Int) : List α :=
  let start : Nat := if i < 0 then l.length - i.natAbs else i.toNat
  l.eraseIdx start

/-! ## PropTypes value model (src/PropTypes.js)

JS field values are modelled with an explicit allocation identity for
mutable data: a primitive (number, boolean, string, undefined, null)
has no identity, while objects, arrays and JSON structures carry an
address `addr` (reference equality of two JS objects is equality of
addresses) together with their structural content. -/

/-- A JS primitive value (no reference identity). -/
inductive PrimVal : Type where
  | pnum : Int → PrimVal
  | pbool : Bool → PrimVal
  | pstr : String → PrimVal
  | pnull : PrimVal
  | pundef : PrimVal
deriving DecidableEq, Repr

/-- Structural content of a JSON-serializable JS value. Contents are
modelled one level deep (an array of primitives or a record of
primitives), which is all the field-by-field comparison claims observe. -/
inductive JsonData : Type where
  | jnull : JsonData
  | jnum : Int → JsonData
  | jstr : String → JsonData
  | jbool : Bool → JsonData
  | jarr : List PrimVal → JsonData
  | jobj : List (String × PrimVal) → JsonData
deriving DecidableEq, Repr

/-- A reference to a mutable JS object: allocation address plus content. -/
structure RefObj : Type where
  addr : Nat
  data : JsonData
deriving DecidableEq, Repr

/-- A component field's stored value. -/
inductive FieldVal : Type where
  | prim : PrimVal → FieldVal
  | ref : RefObj → FieldVal
deriving DecidableEq, Repr

/-- The six built-in PropTypes (src/PropTypes.js lines 37-54). -/
inductive PTKind : Type where
  | num | bool | str | obj | arr | json
deriving DecidableEq, Repr

/-- `cloneValue = src => src` (src/PropTypes.js line 3): used by the
Number, Boolean, String and Object PropTypes; an object reference is
returned as-is (aliasing). -/
def cloneValue (v : FieldVal) : FieldVal := v

/-- `cloneArray = src => src.slice()` (line 18): a fresh array object
(new address, drawn from the allocation counter) with the same elements. -/
def cloneArray (r : RefObj) (n : Nat) : FieldVal × Nat :=
  (FieldVal.ref { addr := n, data := r.data }, n + 1)

/-- `cloneJSON = src => JSON.parse(JSON.stringify(src))` (line 23): the
serialize/deserialize round trip of pure JSON data yields a structurally
identical, freshly allocated value. -/
def cloneJSON (r : RefObj) (n : Nat) : FieldVal × Nat :=
  (FieldVal.ref { addr := n, data := r.data }, n + 1)

/-- Dispatch of the `clone` entry of each PropTypes row (lines 37-54),
threading the allocation counter. A `clone` applied to a primitive where
the PropType expects an object (ill-typed in JS) is left unchanged. -/
def ptClone (k : PTKind) (v : FieldVal) (n : Nat) : FieldVal × Nat :=
  match k with
  | .num | .bool | .str | .obj => (cloneValue v, n)
  | .arr =>
    match v with
    | .ref r => cloneArray r n
    | p => (p, n)
  | .json =>
    match v with
    | .ref r => cloneJSON r n
    | p => (p, n)

/-- Structural (value) equality of two field values, ignoring reference
identity: JS deep equality of the contents. -/
def fieldValueEq : FieldVal → FieldVal → Bool
  | .prim p, .prim q => decide (p = q)
  | .ref r, .ref s => decide (r.data = s.data)
  | _, _ => false

/-! ## Core runtime data model (src/Entity.js, src/World.js) -/

/-- A component class. Its JS reference identity is the `tid`; map
lookups in the code use `name`. A class may be flagged as a system-state
component, and carries its schema (field name to PropType kind) for the
clone/copy operations. -/
structure CompType : Type where
  tid : Nat
  name : String
  isSystemStateComponent : Bool
  schema : List (String × PTKind)
deriving DecidableEq, Repr

/-- A component instance: allocation identity `iid` (JS object
reference), its class, and its field values. -/
structure CompInst : Type where
  iid : Nat
  typ : CompType
  fields : List (String × FieldVal)
deriving DecidableEq, Repr

/-- The state of one Entity object (Entity.js constructor, lines 62-85).
`componentsToRemove` stores `Option CompInst` values because the code can
assign `undefined` into the map; a property read is truthy only when the
entry exists and is `some`. -/
structure EntityData : Type where
  id : Nat
  componentTypes : List CompType
  components : List (String × CompInst)
  componentsToRemove : List (String × Option CompInst)
  componentTypesToRemove : List CompType
  queries : List Nat
  alive : Bool
  numSystemStateComponents : Int
  pool : Bool
deriving DecidableEq, Repr

instance : Inhabited EntityData :=
  ⟨{ id := 0, componentTypes := [], components := [], componentsToRemove := [],
     componentTypesToRemove := [], queries := [], alive := false,
     numSystemStateComponents := 0, pool := false }⟩

/-- A cached query: required types, excluded types, current result list
(entity object ids) and the reactive flag. -/
structure QueryData : Type where
  Components : List CompType
  NotComponents : List CompType
  entities : List Nat
  reactive : Bool
deriving DecidableEq, Repr

/-- The World state (World.js constructor, lines 318-350). Entity objects
of the JS heap live in `store`, keyed by an allocation id; every other
entity-valued list or map holds such object ids. `entityPoolFree` is the
free list of the world's entity pool; `nextObjId` and `nextAlloc` are the
allocation counters of the embedding (JS object creation). -/
structure World : Type where
  store : List (Nat × EntityData)
  entities : List Nat
  entitiesById : List (Nat × Nat)
  nextEntityId : Nat
  entitiesToRemove : List Nat
  entitiesWithComponentsToRemove : List Nat
  deferredRemovalEnabled : Bool
  queries : List (Nat × QueryData)
  nextQueryId : Nat
  componentCounts : List (String × Option Int)
  componentPools : List (String × List CompInst)
  entityPoolFree : List Nat
  nextObjId : Nat
  nextAlloc : Nat
deriving DecidableEq, Repr

/-- Read an Entity object from the heap. -/
def getEnt (w : World) (e : Nat) : EntityData := (alookup w.store e).getD default

/-- Write an Entity object back to the heap. -/
def setEnt (w : World) (e : Nat) (d : EntityData) : World :=
  { w with store := aset w.store e d }

/-! ## Entity reads (Entity.js) -/

/-- Truthy read of `this._componentsToRemove[name]`: the entry must exist
and not hold `undefined`. -/
def pendingGet (d : EntityData) (name : String) : Option CompInst :=
  match alookup d.componentsToRemove name with
  | some v => v
  | none => none

/-- `Entity.getComponent(Component, includeRemoved)` (lines 93-101), with
the DEBUG wrapper disabled as in the source (`DEBUG = false`). -/
def getComponent (w : World) (e : Nat) (C : CompType) (includeRemoved : Bool) :
    Option CompInst :=
  let d := getEnt w e
  let component := alookup d.components C.name
  if component.isNone && includeRemoved then pendingGet d C.name else component

/-- `Entity.hasRemovedComponent(Component)` (lines 195-197). -/
def hasRemovedComponent (d : EntityData) (C : CompType) : Bool :=
  jsIndexOf d.componentTypesToRemove C ≠ -1

/-- `Entity.hasComponent(Component, includeRemoved)` (lines 188-193). -/
def hasComponentD (d : EntityData) (C : CompType) (includeRemoved : Bool) : Bool :=
  (jsIndexOf d.componentTypes C ≠ -1) ||
    (includeRemoved && hasRemovedComponent d C)

/-- `Entity.hasAllComponents(Components)` (lines 199-204). -/
def hasAllComponents (d : EntityData) (Components : List CompType) : Bool :=
  Components.all (fun C => hasComponentD d C false)

/-- `Entity.hasAnyComponents(Components)` (lines 206-211). -/
def hasAnyComponents (d : EntityData) (Components : List CompType) : Bool :=
  Components.any (fun C => hasComponentD d C false)

/-- Modelled from the spec: `Query.match(entity)` (Query.js is not in the
repo snapshot). Spec 4.3: true iff the entity holds every required type
and none of the excluded types. -/
def queryMatch (q : QueryData) (d : EntityData) : Bool :=
  hasAllComponents d q.Components && !hasAnyComponents d q.NotComponents

/-! ## Query membership maintenance (World.js) -/

/-- Modelled from the spec: `Query.addEntity(entity)` (Query.js is not in
the repo snapshot). Spec 4.3: push the query onto the entity's
back-reference list and the entity onto the query's result list. -/
def queryAddEntity (w : World) (qk : Nat) (e : Nat) : World :=
  match alookup w.queries qk with
  | none => w
  | some q =>
    let d := getEnt w e
    let w := setEnt w e { d with queries := d.queries ++ [qk] }
    { w with queries := aset w.queries qk { q with entities := q.entities ++ [e] } }

/-- Modelled from the spec: `Query.removeEntity(entity)` (Query.js is not
in the repo snapshot). Spec 4.3: when present, pop the entity from the
query's result list and the query from the entity's back-reference list. -/
def queryRemoveEntity (w : World) (qk : Nat) (e : Nat) : World :=
  match alookup w.queries qk with
  | none => w
  | some q =>
    let i := jsIndexOf q.entities e
    if i ≠ -1 then
      let w := { w with queries := aset w.queries qk { q with entities := jsSplice1 q.entities i } }
      let d := getEnt w e
      let j := jsIndexOf d.queries qk
      if j ≠ -1 then setEnt w e { d with queries := jsSplice1 d.queries j } else w
    else w

/-- `this.componentCounts[name]++`: incrementing a missing property gives
NaN in JS, modelled as `none`; NaN stays NaN. -/
def countBump (m : List (String × Option Int)) (name : String) : List (String × Option Int) :=
  match alookup m name with
  | some (some n) => aset m name (some (n + 1))
  | some none => aset m name none
  | none => aset m name none

/-- `this.componentCounts[name]--` with the same NaN behaviour. -/
def countDrop (m : List (String × Option Int)) (name : String) : List (String × Option Int) :=
  match alookup m name with
  | some (some n) => aset m name (some (n - 1))
  | some none => aset m name none
  | none => aset m name none

/-- The per-query body of the loop of `World.onComponentAdded`
(World.js lines 492-516). -/
def queryStepAdd (e : Nat) (C : CompType) (w : World) (qk : Nat) : World :=
  match alookup w.queries qk with
  | none => w
  | some q =>
    if (jsIndexOf q.NotComponents C ≠ -1) && (jsIndexOf q.entities e ≠ -1) then
      queryRemoveEntity w qk e
    else if (jsIndexOf q.Components C = -1) || !queryMatch q (getEnt w e) ||
        (jsIndexOf q.entities e ≠ -1) then
      w
    else
      queryAddEntity w qk e

/-- `World.onComponentAdded(entity, Component)` (lines 485-517). The
unregistered-component check only logs a warning. -/
def onComponentAdded (w : World) (e : Nat) (C : CompType) : World :=
  let w := { w with componentCounts := countBump w.componentCounts C.name }
  (w.queries.map Prod.fst).foldl (queryStepAdd e C) w

/-- The per-query body of the loop of `World.onRemoveComponent`
(World.js lines 544-564). -/
def queryStepRemove (e : Nat) (C : CompType) (w : World) (qk : Nat) : World :=
  match alookup w.queries qk with
  | none => w
  | some q =>
    if (jsIndexOf q.NotComponents C ≠ -1) && (jsIndexOf q.entities e = -1) &&
        queryMatch q (getEnt w e) then
      queryAddEntity w qk e
    else if (jsIndexOf q.Components C ≠ -1) && (jsIndexOf q.entities e ≠ -1) &&
        !queryMatch q (getEnt w e) then
      queryRemoveEntity w qk e
    else
      w

/-- `World.onRemoveComponent(entity, Component)` (lines 541-565). -/
def onRemoveComponent (w : World) (e : Nat) (C : CompType) : World :=
  let w := { w with componentCounts := countDrop w.componentCounts C.name }
  (w.queries.map Prod.fst).foldl (queryStepRemove e C) w

/-! ## Deferred-removal queues and disposal hooks (World.js) -/

/-- `World.queueComponentRemoval(entity)` (lines 533-539): push only when
the entity is not already queued. -/
def queueComponentRemoval (w : World) (e : Nat) : World :=
  if jsIndexOf w.entitiesWithComponentsToRemove e = -1 then
    { w with entitiesWithComponentsToRemove := w.entitiesWithComponentsToRemove ++ [e] }
  else
    w

/-- `World.queueEntityDisposal(entity)` (lines 567-569). -/
def queueEntityDisposal (w : World) (e : Nat) : World :=
  { w with entitiesToRemove := w.entitiesToRemove ++ [e] }

/-- `World.onEntityDisposed(entity)` (lines 571-583): early return when
`entitiesById[entity._id]` is not truthy, otherwise delete the id mapping
and splice the entity out of the master list. -/
def onEntityDisposed (w : World) (e : Nat) : World :=
  let d := getEnt w e
  if (alookup w.entitiesById d.id).isNone then w
  else
    let w := { w with entitiesById := aremove w.entitiesById d.id }
    let i := jsIndexOf w.entities e
    if i ≠ -1 then { w with entities := jsSplice1 w.entities i } else w

/-- Modelled from the spec: `Component.dispose()` (Component.js is not in
the repo snapshot). Spec 3: dispose returns the instance to its pool. -/
def instDispose (w : World) (c : CompInst) : World :=
  match alookup w.componentPools c.typ.name with
  | some freeList => { w with componentPools := aset w.componentPools c.typ.name (freeList ++ [c]) }
  | none => w

/-- Modelled from the spec: `ObjectPool.release` of the world's entity
pool (ObjectPool.js is not in the repo snapshot). Spec 4.4: push onto the
free list. -/
def entityPoolRelease (w : World) (e : Nat) : World :=
  { w with entityPoolFree := w.entityPoolFree ++ [e] }

/-! ## Component construction and attachment -/

/-- Clone of a PropType's default value, as performed by the Component
constructor: Number 0, Boolean false, String empty, Object undefined,
Array a fresh empty array, JSON null (PropTypes.js lines 37-54). -/
def defaultFieldVal : PTKind → Nat → FieldVal × Nat
  | .num, n => (.prim (.pnum 0), n)
  | .bool, n => (.prim (.pbool false), n)
  | .str, n => (.prim (.pstr ""), n)
  | .obj, n => (.prim .pundef, n)
  | .arr, n => (.ref { addr := n, data := .jarr [] }, n + 1)
  | .json, n => (.prim .pnull, n)

/-- Dispatch of the `copy` entry of each PropTypes row: `copyValue`
aliases (PropTypes.js line 1), `copyArray` rebuilds the destination array
in place keeping its identity (lines 5-16), `copyJSON` replaces the
destination with a fresh deep copy (lines 20-21). -/
def ptCopy (k : PTKind) (srcv destv : FieldVal) (n : Nat) : FieldVal × Nat :=
  match k with
  | .num | .bool | .str | .obj => (srcv, n)
  | .arr =>
    match destv, srcv with
    | .ref d, .ref s => (.ref { addr := d.addr, data := s.data }, n)
    | _, _ => (destv, n)
  | .json =>
    match srcv with
    | .ref s => (.ref { addr := n, data := s.data }, n + 1)
    | p => (p, n)

/-- Modelled from the spec: the Component constructor (Component.js is
not in the repo snapshot). Spec 6/3: each schema field is initialized
from the supplied props when present, otherwise to a clone of the
PropType's default value. -/
def newComponentInstance (w : World) (C : CompType)
    (props : Option (List (String × FieldVal))) : CompInst × World :=
  let iid := w.nextAlloc
  let w := { w with nextAlloc := iid + 1 }
  let (fields, w) := C.schema.foldl
    (fun (acc : List (String × FieldVal) × World) kv =>
      let (fs, w) := acc
      match props.bind (fun ps => alookup ps kv.1) with
      | some v => (fs ++ [(kv.1, v)], w)
      | none =>
        let (v, n) := defaultFieldVal kv.2 w.nextAlloc
        (fs ++ [(kv.1, v)], { w with nextAlloc := n }))
    ([], w)
  ({ iid := iid, typ := C, fields := fields }, w)

/-- Modelled from the spec: `Component.copy(source)` applied to the
initial values of `addComponent` (Component.js is not in the repo
snapshot). Spec 4.1: fields present in the source are overwritten via the
PropType's per-field `copy`. -/
def compCopyProps (w : World) (c : CompInst) (src : List (String × FieldVal)) :
    CompInst × World :=
  let (fields, w) := c.typ.schema.foldl
    (fun (acc : List (String × FieldVal) × World) kv =>
      let (fs, w) := acc
      match alookup src kv.1 with
      | none => (fs, w)
      | some sv =>
        let destv := (alookup fs kv.1).getD (.prim .pundef)
        let (v, n) := ptCopy kv.2 sv destv w.nextAlloc
        (aset fs kv.1 v, { w with nextAlloc := n }))
    (c.fields, w)
  ({ c with fields := fields }, w)

/-- `Entity.attachComponent(component)` (Entity.js lines 139-157). -/
def attachComponent (w : World) (e : Nat) (component : CompInst) : World :=
  let C := component.typ
  let d := getEnt w e
  if jsIndexOf d.componentTypes C ≠ -1 then w
  else
    let d := { d with componentTypes := d.componentTypes ++ [C] }
    let d :=
      if C.isSystemStateComponent then
        { d with numSystemStateComponents := d.numSystemStateComponents + 1 }
      else d
    let d := { d with components := aset d.components C.name component }
    let w := setEnt w e d
    if d.alive then onComponentAdded w e C else w

/-- `Entity.addComponent(Component, props)` (Entity.js lines 159-186).
The instance comes from the world's pool for the type when one exists
(pool acquisition modelled from spec 4.4: pop the free list, or construct
fresh when empty), otherwise it is freshly constructed; a pooled instance
with props supplied is overwritten via `copy`. -/
def addComponent (w : World) (e : Nat) (C : CompType)
    (props : Option (List (String × FieldVal))) : World :=
  let d := getEnt w e
  if jsIndexOf d.componentTypes C ≠ -1 then w
  else
    let d := { d with componentTypes := d.componentTypes ++ [C] }
    let d :=
      if C.isSystemStateComponent then
        { d with numSystemStateComponents := d.numSystemStateComponents + 1 }
      else d
    let w := setEnt w e d
    let componentPool := alookup w.componentPools C.name
    let (component, w) :=
      match componentPool with
      | none => newComponentInstance w C props
      | some freeList =>
        match freeList with
        | c :: rest => (c, { w with componentPools := aset w.componentPools C.name rest })
        | [] => newComponentInstance w C none
    let (component, w) :=
      match componentPool, props with
      | some _, some ps => compCopyProps w component ps
      | _, _ => (component, w)
    let d := getEnt w e
    let w := setEnt w e { d with components := aset d.components C.name component }
    if d.alive then onComponentAdded w e C else w

/-! ## Entity construction and world setup -/

/-- The Entity constructor (Entity.js lines 62-85): assigns the next
entity id and starts not-alive; a fresh object id is drawn for the new JS
object. -/
def entityNew (w : World) : Nat × World :=
  let obj := w.nextObjId
  let d : EntityData :=
    { id := w.nextEntityId, componentTypes := [], components := [],
      componentsToRemove := [], componentTypesToRemove := [], queries := [],
      alive := false, numSystemStateComponents := 0, pool := false }
  (obj, { w with nextObjId := obj + 1, nextEntityId := w.nextEntityId + 1,
                 store := aset w.store obj d })

/-- Modelled from the spec: `ObjectPool.acquire` of the world's entity
pool (ObjectPool.js is not in the repo snapshot). Spec 4.4: pop from the
free list if non-empty, otherwise construct a fresh instance; an acquired
entity belongs to the pool (dispose's pool-release path). -/
def entityPoolAcquire (w : World) : Nat × World :=
  match w.entityPoolFree with
  | obj :: rest => (obj, { w with entityPoolFree := rest })
  | [] =>
    let (obj, w) := entityNew w
    let d := getEnt w obj
    (obj, setEnt w obj { d with pool := true })

/-- `World.addEntity(entity)` (World.js lines 426-442): warn and return
unchanged on a duplicate id, otherwise index by id, append to the master
list, mark alive, and re-evaluate queries for each carried component. -/
def addEntity (w : World) (e : Nat) : World :=
  let d := getEnt w e
  if (alookup w.entitiesById d.id).isSome then w
  else
    let w := { w with entitiesById := aset w.entitiesById d.id e,
                      entities := w.entities ++ [e] }
    let d := getEnt w e
    let w := setEnt w e { d with alive := true }
    (getEnt w e).componentTypes.foldl (fun w C => onComponentAdded w e C) w

/-- `World.createEntity()` (World.js lines 417-420). -/
def createEntity (w : World) : Nat × World :=
  let (e, w) := entityPoolAcquire w
  (e, addEntity w e)

/-- Modelled from the spec: `World.getQuery` with the Query constructor
(Query.js is not in the repo snapshot). Spec 4.3: a query is cached under
its predicate; a newly created query is seeded by scanning the complete
current entity set once, adding each matching entity. -/
def getQuery (w : World) (Components NotComponents : List CompType) : Nat × World :=
  let existing := w.queries.find?
    (fun kq => kq.2.Components = Components && kq.2.NotComponents = NotComponents)
  match existing with
  | some kq => (kq.1, w)
  | none =>
    let k := w.nextQueryId
    let q0 : QueryData :=
      { Components := Components, NotComponents := NotComponents,
        entities := [], reactive := false }
    let w := { w with nextQueryId := k + 1, queries := w.queries ++ [(k, q0)] }
    let w := w.entities.foldl
      (fun w e => if queryMatch q0 (getEnt w e) then queryAddEntity w k e else w) w
    (k, w)

/-- The empty world record. -/
def worldEmpty : World :=
  { store := [], entities := [], entitiesById := [], nextEntityId := 0,
    entitiesToRemove := [], entitiesWithComponentsToRemove := [],
    deferredRemovalEnabled := true, queries := [], nextQueryId := 0,
    componentCounts := [], componentPools := [], entityPoolFree := [],
    nextObjId := 0, nextAlloc := 0 }

/-- The World constructor (World.js lines 318-350):
`new ObjectPool(new Entity(this))` constructs a template entity, which
consumes entity id 0 before any `createEntity` call. -/
def worldInit : World :=
  (entityNew worldEmpty).2

/-! ## Removal and disposal (mutually recursive in the source)

`removeComponent` may call `dispose` (the ghost path), `dispose` calls
`removeAllComponents`, which calls `removeComponent` again, and
`processRemovedComponents` drains via `removeComponent`. The mutual
recursion is made structural on an explicit fuel counter; every theorem
below supplies enough fuel for the recursion actually performed. -/

mutual

/-- `Entity.removeComponent(Component, immediately)` (Entity.js lines
213-257). Note the unguarded `this.componentTypes.splice(index, 1)` in
the first block (`index` may be -1) and the unconditional system-state
decrement at the end. -/
def removeComponent : Nat → World → Nat → CompType → Bool → World
  | 0, w, _, _, _ => w
  | fuel + 1, w, e, C, immediately =>
    let componentName := C.name
    let component := alookup (getEnt w e).components componentName
    let w :=
      if (pendingGet (getEnt w e) componentName).isNone then
        let d := getEnt w e
        let d := { d with components := aremove d.components componentName }
        let i := jsIndexOf d.componentTypes C
        let d := { d with componentTypes := jsSplice1 d.componentTypes i }
        let w := setEnt w e d
        if d.alive then onRemoveComponent w e C else w
      else w
    let w :=
      if immediately then
        let w :=
          match component with
          | some c => instDispose w c
          | none => w
        let d := getEnt w e
        if (pendingGet d componentName).isSome then
          let d := { d with componentsToRemove := aremove d.componentsToRemove componentName }
          let i := jsIndexOf d.componentTypesToRemove C
          let d :=
            if i ≠ -1 then
              { d with componentTypesToRemove := jsSplice1 d.componentTypesToRemove i }
            else d
          setEnt w e d
        else w
      else
        let d := getEnt w e
        if d.alive then
          let d := { d with
            componentTypesToRemove := d.componentTypesToRemove ++ [C],
            componentsToRemove := aset d.componentsToRemove componentName component }
          let w := setEnt w e d
          queueComponentRemoval w e
        else w
    if C.isSystemStateComponent then
      let d := getEnt w e
      let d := { d with numSystemStateComponents := d.numSystemStateComponents - 1 }
      let w := setEnt w e d
      if d.numSystemStateComponents = 0 && !d.alive then dispose fuel w e false else w
    else w
  termination_by structural fuel => fuel

/-- `Entity.dispose(immediately)` (Entity.js lines 290-309). In the
immediate branch the id is reassigned BEFORE `onEntityDisposed` runs. -/
def dispose : Nat → World → Nat → Bool → World
  | 0, w, _, _ => w
  | fuel + 1, w, e, immediately =>
    let w :=
      if (getEnt w e).alive then
        let w := removeAllComponents fuel w e immediately
        let d := getEnt w e
        setEnt w e { d with queries := [] }
      else w
    let d := getEnt w e
    let w := setEnt w e { d with alive := false }
    if immediately then
      let d := getEnt w e
      let w := setEnt w e { d with id := w.nextEntityId }
      let w := { w with nextEntityId := w.nextEntityId + 1 }
      let w := onEntityDisposed w e
      if (getEnt w e).pool then entityPoolRelease w e else w
    else
      queueEntityDisposal w e
  termination_by structural fuel => fuel

/-- `Entity.removeAllComponents(immediately)` (Entity.js lines 267-273):
iterate the live `componentTypes` array backwards from its current
length. -/
def removeAllComponents : Nat → World → Nat → Bool → World
  | 0, w, _, _ => w
  | fuel + 1, w, e, immediately =>
    removeAllLoop fuel w e immediately (getEnt w e).componentTypes.length
  termination_by structural fuel => fuel

/-- The backwards `for` loop of `removeAllComponents`, reading the live
array at each step (the array is spliced by each removal). -/
def removeAllLoop : Nat → World → Nat → Bool → Nat → World
  | 0, w, _, _, _ => w
  | fuel + 1, w, e, immediately, j =>
    match j with
    | 0 => w
    | jj + 1 =>
      match (getEnt w e).componentTypes[jj]? with
      | some C => removeAllLoop fuel (removeComponent fuel w e C immediately) e immediately jj
      | none => removeAllLoop fuel w e immediately jj
  termination_by structural fuel => fuel

/-- `Entity.processRemovedComponents()` (Entity.js lines 259-264): while
the pending list is non-empty, pop its last element and remove it
immediately. -/
def processRemovedComponents : Nat → World → Nat → World
  | 0, w, _ => w
  | fuel + 1, w, e =>
    let d := getEnt w e
    match d.componentTypesToRemove.getLast? with
    | none => w
    | some C =>
      let w := setEnt w e { d with componentTypesToRemove := d.componentTypesToRemove.dropLast }
      let w := removeComponent fuel w e C true
      processRemovedComponents fuel w e
  termination_by structural fuel => fuel

end

/-- `World.processDeferredRemoval()` (World.js lines 585-603): flush
queued entity disposals first, then pending component removals, clearing
both queues. -/
def processDeferredRemoval (fuel : Nat) (w : World) : World :=
  if !w.deferredRemovalEnabled then w
  else
    let w := w.entitiesToRemove.foldl (fun w e => dispose fuel w e true) w
    let w := { w with entitiesToRemove := [] }
    let w := w.entitiesWithComponentsToRemove.foldl
      (fun w e => processRemovedComponents fuel w e) w
    { w with entitiesWithComponentsToRemove := [] }

instance : Inhabited QueryData :=
  ⟨{ Components := [], NotComponents := [], entities := [], reactive := false }⟩

/-! ## Concrete scenarios

Small reachable states built exclusively through the public API, used to
evaluate the code where it diverges from the specification. The component
classes `ctA`, `ctB` are plain types; `ctS` is a system-state type. In
`worldInit` the pool's template entity has consumed entity id 0, so the
first created entity carries object id 1 and entity id 1. -/

def ctA : CompType := { tid := 1, name := "A", isSystemStateComponent := false, schema := [] }

def ctB : CompType := { tid := 2, name := "B", isSystemStateComponent := false, schema := [] }

def ctS : CompType := { tid := 3, name := "S", isSystemStateComponent := true, schema := [] }

def instA : CompInst := { iid := 100, typ := ctA, fields := [] }

def instS : CompInst := { iid := 200, typ := ctS, fields := [] }

/-- C1 scenario: a world with one live entity (object id 1, entity id 1),
then `entity.dispose(true)`. -/
def c1Before : World := (createEntity worldInit).2

def c1After : World := dispose 9 c1Before 1 true

/-- C2 scenario: one live entity holding `ctA`, a cached query requiring
`[ctA]` (key 0, seeded with the entity), then
`entity.removeComponent(ctB, true)` for the never-attached `ctB`. -/
def c2Before : World :=
  (getQuery (attachComponent (createEntity worldInit).2 1 instA) [ctA] []).2

def c2After : World := removeComponent 9 c2Before 1 ctB true

def c2Query : QueryData := (alookup c2After.queries 0).getD default

/-- C3 scenario: one live entity holding only `ctA`, then
`entity.removeComponent(ctB, true)` for the never-attached `ctB`. -/
def c3Before : World := attachComponent (createEntity worldInit).2 1 instA

def c3After : World := removeComponent 9 c3Before 1 ctB true

/-- C4 scenario: one live entity holding only the system-state component
`ctS`, then `entity.dispose(false)` (deferred) followed by one
`world.processDeferredRemoval()` flush. `ctS` is never explicitly removed
by any caller. -/
def c4Before : World := attachComponent (createEntity worldInit).2 1 instS

def c4Disposed : World := dispose 9 c4Before 1 false

def c4After : World := processDeferredRemoval 9 c4Disposed

/-- Scenario world for the C7 witness: one live entity holding `ctA`. -/
def c7World : World := attachComponent (createEntity worldInit).2 1 instA

/-- Invariant carried through the `onComponentAdded` query loop: the
added type is held by the entity, and the observed query's entry keeps
the added type in its exclusion list with a duplicate-free result list. -/
def excludedInv (e : Nat) (C : CompType) (qk : Nat) (w : World) : Prop :=
  C ∈ (getEnt w e).componentTypes ∧
  ∀ q', alookup w.queries qk = some q' → C ∈ q'.NotComponents ∧ q'.entities.Nodup

def instB : CompInst := { iid := 101, typ := ctB, fields := [] }

/-- C6 witness scenario: entity 1 holds `ctA` and has just gained the
excluded `ctB` (entity state as it is at the instant `attachComponent`
notifies the world); query 0 requires `[ctA]`, excludes `[ctB]`, and
still lists entity 1. -/
def c6Entity : EntityData :=
  { id := 1, componentTypes := [ctA, ctB],
    components := [("A", instA), ("B", instB)],
    componentsToRemove := [], componentTypesToRemove := [], queries := [0],
    alive := true, numSystemStateComponents := 0, pool := true }

def c6Query : QueryData :=
  { Components := [ctA], NotComponents := [ctB], entities := [1], reactive := false }

def c6World : World :=
  { worldEmpty with store := [(1, c6Entity)], entities := [1],
                    entitiesById := [(1, 1)], queries := [(0, c6Query)],
                    nextQueryId := 1, nextEntityId := 2, nextObjId := 2 }

/-! ## C8: `World.registerComponent` (World.js lines 352-410)

Registration only observes the JS truthiness of the schema object, of
each field's `type`, and of the type's `name`/`clone`/`copy` entries,
plus `hasOwnProperty("default")`; a component class is therefore
described for registration purposes by those booleans alone. -/

/-- A PropType object as seen by registration-time validation. -/
structure PTDesc : Type where
  hasName : Bool
  hasDefault : Bool
  hasClone : Bool
  hasCopy : Bool
deriving DecidableEq, Repr

/-- One schema field: its `type` property, if present (truthy). -/
structure FieldDesc : Type where
  typeProp : Option PTDesc
deriving DecidableEq, Repr

/-- A component class as seen by `registerComponent`: its name and its
`schema` static property, if present (truthy). -/
structure CCDesc : Type where
  name : String
  schema : Option (List (String × FieldDesc))
deriving DecidableEq, Repr

/-- The `objectPool` argument: omitted, the literal `false`, or a custom
pool object (identified by a tag). -/
inductive PoolArg : Type where
  | undef : PoolArg
  | falsy : PoolArg
  | pool : Nat → PoolArg
deriving DecidableEq, Repr

/-- What ends up stored in `componentPools[name]`: nothing (property set
to `undefined` when `objectPool === false`), a freshly created
`new ObjectPool(new Component())`, or the caller's pool. -/
inductive PoolVal : Type where
  | created : PoolVal
  | supplied : Nat → PoolVal
deriving DecidableEq, Repr

/-- The three world registries touched by `registerComponent`. -/
structure RegWorld : Type where
  componentTypes : List (String × CCDesc)
  componentCounts : List (String × Option Int)
  componentPools : List (String × Option PoolVal)
deriving DecidableEq, Repr

/-- The validation loop over the schema's fields (World.js lines
364-396), returning the first error: missing `type`, missing `default`
(via `hasOwnProperty`), missing `clone`, or missing `copy`. A type
without a `name` only logs a warning. -/
def checkSchemaFields : List (String × FieldDesc) → Option String
  | [] => none
  | (_, prop) :: rest =>
    match prop.typeProp with
    | none => some "Missing type for property."
    | some t =>
      if !t.hasDefault then some "Type with no default value."
      else if !t.hasClone then some "Type with no clone method."
      else if !t.hasCopy then some "Type with no copy method."
      else checkSchemaFields rest

/-- A field passes validation iff it has a type carrying a default, a
clone and a copy. -/
def goodField (f : FieldDesc) : Bool :=
  match f.typeProp with
  | none => false
  | some t => t.hasDefault && t.hasClone && t.hasCopy

/-- The pool-argument rule of World.js lines 401-407: `false` becomes
`undefined`, omitted creates a fresh per-type pool, anything else is
stored as given. -/
def poolRule : PoolArg → Option PoolVal
  | .falsy => none
  | .undef => some .created
  | .pool p => some (.supplied p)

/-- `World.registerComponent(Component, objectPool)` (World.js lines
352-410). Double registration warns and returns the world unchanged
before any validation; an invalid schema throws; otherwise the class is
recorded, its count zeroed, and its pool entry stored per `poolRule`. -/
def registerComponent (w : RegWorld) (C : CCDesc) (objectPool : PoolArg) :
    Except String RegWorld :=
  if (alookup w.componentTypes C.name).isSome then .ok w
  else
    match C.schema with
    | none => .error "Component has no schema property."
    | some schema =>
      match checkSchemaFields schema with
      | some msg => .error msg
      | none =>
        let w := { w with componentTypes := aset w.componentTypes C.name C,
                          componentCounts := aset w.componentCounts C.name (some 0) }
        .ok { w with componentPools := aset w.componentPools C.name (poolRule objectPool) }

def c8Number : PTDesc :=
  { hasName := true, hasDefault := true, hasClone := true, hasCopy := true }

def c8Position : CCDesc :=
  { name := "Position",
    schema := some [("x", { typeProp := some c8Number }),
                    ("y", { typeProp := some c8Number })] }

def c8Empty : RegWorld :=
  { componentTypes := [], componentCounts := [], componentPools := [] }

/-! ## C5: deferred-removal visibility (supporting definitions)

The lemmas later in the file show that the query-membership notifications
only ever touch an entity's `queries` back-reference list, so every other
entity field (its "core") passes through them unchanged, and that
component-instance disposal and queue registration do not touch the
entity store at all. -/

/-- All fields of an entity except its query back-reference list. -/
def entCore (d : EntityData) :
    Nat × List CompType × List (String × CompInst) × List (String × Option CompInst) ×
      List CompType × Bool × Int × Bool :=
  (d.id, d.componentTypes, d.components, d.componentsToRemove,
    d.componentTypesToRemove, d.alive, d.numSystemStateComponents, d.pool)

/-- Reachability invariant of the deferred-removal bookkeeping: the
pending map is truthy exactly on the names of the pending type list, and
both carry no duplicate names. -/
def pendSync (d : EntityData) : Prop :=
  (∀ name, (pendingGet d name).isSome = true ↔
    name ∈ d.componentTypesToRemove.map CompType.name) ∧
  (d.componentTypesToRemove.map CompType.name).Nodup ∧
  (d.componentsToRemove.map Prod.fst).Nodup

/-- C5 witness scenario: one live entity holding only `ctA`. -/
def c5World : World := attachComponent (createEntity worldInit).2 1 instA

/-! ## C9: round-trip copy and the PropTypes clone semantics -/

/-- Modelled from the spec: the per-field loop of `Component.clone`
(Component.js is not in the repo snapshot). Spec 3/4.1: clone produces an
independent instance, each schema field duplicated with its PropType's
clone; the allocation counter is threaded through the fields in order. -/
def cloneFields : List (String × PTKind) → List (String × FieldVal) → Nat →
    List (String × FieldVal) × Nat
  | [], _, n => ([], n)
  | (key, k) :: rest, fields, n =>
    match alookup fields key with
    | some v =>
      let (v2, n2) := ptClone k v n
      let (fs, n3) := cloneFields rest fields n2
      ((key, v2) :: fs, n3)
    | none => cloneFields rest fields n

/-- Modelled from the spec: `Component.clone()` (Component.js is not in
the repo snapshot). A fresh instance (fresh allocation identity) of the
same class, with every schema field cloned per its PropType. -/
def compClone (c : CompInst) (n : Nat) : CompInst × Nat :=
  let (fields, n2) := cloneFields c.typ.schema c.fields (n + 1)
  ({ iid := n, typ := c.typ, fields := fields }, n2)

/-- The `for ... in source.components` loop of `Entity.copy(source)`
(Entity.js lines 275-284): clone each source component into the
destination map and push its constructor. -/
def entityCopyLoop : List (String × CompInst) → EntityData → Nat → EntityData × Nat
  | [], d, n => (d, n)
  | (name, sc) :: rest, d, n =>
    let (cloned, n2) := compClone sc n
    entityCopyLoop rest
      { d with components := aset d.components name cloned,
               componentTypes := d.componentTypes ++ [sc.typ] } n2

/-- `Entity.copy(source)` (Entity.js lines 275-284), threading the
allocation counter of the embedding. -/
def entityCopy (d source : EntityData) (n : Nat) : EntityData × Nat :=
  entityCopyLoop source.components d n

/-- Schema well-typedness of one field value. -/
def fieldWT : PTKind → FieldVal → Bool
  | .num, .prim (.pnum _) => true
  | .bool, .prim (.pbool _) => true
  | .str, .prim (.pstr _) => true
  | .obj, .ref _ => true
  | .arr, .ref _ => true
  | .json, .ref _ => true
  | _, _ => false

/-- C9 witness scenario: a component class exercising all six built-in PropTypes. -/
def c9Type : CompType :=
  { tid := 9, name := "Data", isSystemStateComponent := false,
    schema := [("n", PTKind.num), ("b", PTKind.bool), ("s", PTKind.str),
               ("o", PTKind.obj), ("a", PTKind.arr), ("j", PTKind.json)] }

def c9Inst : CompInst :=
  { iid := 500, typ := c9Type, fields :=
    [("n", FieldVal.prim (PrimVal.pnum 7)),
     ("b", FieldVal.prim (PrimVal.pbool true)),
     ("s", FieldVal.prim (PrimVal.pstr "hi")),
     ("o", FieldVal.ref { addr := 40, data := JsonData.jobj [("k", PrimVal.pnum 1)] }),
     ("a", FieldVal.ref { addr := 41, data := JsonData.jarr [PrimVal.pnum 1, PrimVal.pnum 2] }),
     ("j", FieldVal.ref { addr := 42, data := JsonData.jobj [("z", PrimVal.pbool false)] })] }

def c9A : EntityData :=
  { id := 7, componentTypes := [c9Type], components := [("Data", c9Inst)],
    componentsToRemove := [], componentTypesToRemove := [], queries := [],
    alive := true, numSystemStateComponents := 0, pool := true }

def c9B : EntityData :=
  { id := 8, componentTypes := [], components := [],
    componentsToRemove := [], componentTypesToRemove := [], queries := [],
    alive := true, numSystemStateComponents := 0, pool := true }

/-! ## Helper lemmas and claim theorems -/

theorem jsIndexOf_eq_neg_one {α : Type} [DecidableEq α] (l : List α) (a : α) :
    jsIndexOf l a = -1 ↔ a ∉ l := by
  induction l with
  | nil => simp [jsIndexOf]
  | cons x t ih =>
    by_cases hx : x = a
    · subst hx
      simp [jsIndexOf]
    · simp only [jsIndexOf, if_neg hx]
      by_cases ht : jsIndexOf t a = -1
      · simp [ht, ih.mp ht, Ne.symm hx]
      · have hmem : a ∈ t := by
          by_contra hna
          exact ht (ih.mpr hna)
        have hge : 0 ≤ jsIndexOf t a := by
          clear ih ht hx
          induction t with
          | nil => simp at hmem
          | cons y s ihs =>
            by_cases hy : y = a
            · simp [jsIndexOf, hy]
            · simp only [jsIndexOf, if_neg hy]
              rcases List.mem_cons.mp hmem with h1 | h2
              · exact absurd h1.symm hy
              · have := ihs h2
                by_cases hz : jsIndexOf s a = -1
                · omega
                · simp only [if_neg hz]
                  omega
        simp only [if_neg ht]
        constructor
        · intro h; omega
        · intro h
          exact absurd (List.mem_cons_of_mem x hmem) h

theorem jsIndexOf_ne_neg_one {α : Type} [DecidableEq α] (l : List α) (a : α) :
    jsIndexOf l a ≠ -1 ↔ a ∈ l := by
  constructor
  · intro h
    by_contra hn
    exact h ((jsIndexOf_eq_neg_one l a).mpr hn)
  · intro h hne
    exact (jsIndexOf_eq_neg_one l a).mp hne h

theorem alookup_aset_self {α β : Type} [DecidableEq α] (l : List (α × β)) (a : α) (b : β) :
    alookup (aset l a b) a = some b := by
  induction l with
  | nil => simp [aset, alookup]
  | cons kv t ih =>
    obtain ⟨k, v⟩ := kv
    by_cases hk : k = a
    · simp [aset, alookup, hk]
    · simp [aset, alookup, hk, ih]

theorem alookup_aset_ne {α β : Type} [DecidableEq α] (l : List (α × β)) (a c : α) (b : β)
    (h : c ≠ a) : alookup (aset l a b) c = alookup l c := by
  induction l with
  | nil =>
    simp only [aset, alookup]
    rw [if_neg (Ne.symm h)]
  | cons kv t ih =>
    obtain ⟨k, v⟩ := kv
    by_cases hk : k = a
    · subst hk
      simp only [aset, if_pos rfl, alookup]
      rw [if_neg (Ne.symm h), if_neg (Ne.symm h)]
    · simp only [aset, if_neg hk, alookup]
      by_cases hc : k = c
      · rw [if_pos hc, if_pos hc]
      · rw [if_neg hc, if_neg hc, ih]

theorem alookup_aremove_ne {α β : Type} [DecidableEq α] (l : List (α × β)) (a c : α)
    (h : c ≠ a) (hnd : (l.map Prod.fst).Nodup) :
    alookup (aremove l a) c = alookup l c := by
  induction l with
  | nil => simp [aremove]
  | cons kv t ih =>
    obtain ⟨k, v⟩ := kv
    simp only [List.map_cons, List.nodup_cons] at hnd
    by_cases hk : k = a
    · subst hk
      simp only [aremove, if_pos rfl, if_true, eq_self_iff_true, alookup]
      rw [if_neg (Ne.symm h)]
    · simp only [aremove, if_neg hk, alookup]
      by_cases hc : k = c
      · rw [if_pos hc, if_pos hc]
      · rw [if_neg hc, if_neg hc, ih hnd.2]

theorem alookup_aremove_self {α β : Type} [DecidableEq α] (l : List (α × β)) (a : α)
    (hnd : (l.map Prod.fst).Nodup) :
    alookup (aremove l a) a = none := by
  induction l with
  | nil => simp [aremove, alookup]
  | cons kv t ih =>
    obtain ⟨k, v⟩ := kv
    simp only [List.map_cons, List.nodup_cons] at hnd
    by_cases hk : k = a
    · subst hk
      simp only [aremove, if_pos rfl]
      clear ih
      induction t with
      | nil => simp [alookup]
      | cons kv2 s ihs =>
        obtain ⟨k2, v2⟩ := kv2
        simp only [List.map_cons, List.mem_cons, List.nodup_cons] at hnd
        have hk2 : k2 ≠ k := fun hh => hnd.1 (Or.inl hh.symm)
        simp only [alookup, if_neg hk2]
        exact ihs ⟨fun hm => hnd.1 (Or.inr hm), hnd.2.2⟩
    · simp only [aremove, if_neg hk, alookup, if_neg hk]
      exact ih hnd.2

theorem jsIndexOf_nonneg_of_mem {α : Type} [DecidableEq α] {l : List α} {a : α}
    (h : a ∈ l) : 0 ≤ jsIndexOf l a := by
  induction l with
  | nil => simp at h
  | cons y s ihs =>
    by_cases hy : y = a
    · simp [jsIndexOf, hy]
    · simp only [jsIndexOf, if_neg hy]
      rcases List.mem_cons.mp h with h1 | h2
      · exact absurd h1.symm hy
      · have := ihs h2
        by_cases hz : jsIndexOf s a = -1
        · omega
        · simp only [if_neg hz]
          omega

theorem jsSplice1_sublist {α : Type} (l : List α) (i : Int) :
    (jsSplice1 l i).Sublist l :=
  List.eraseIdx_sublist l _

theorem jsSplice1_jsIndexOf_of_mem {α : Type} [DecidableEq α] {l : List α} {a : α}
    (h : a ∈ l) : jsSplice1 l (jsIndexOf l a) = l.erase a := by
  induction l with
  | nil => cases h
  | cons x t ih =>
    by_cases hx : x = a
    · subst hx
      simp [jsIndexOf, jsSplice1, List.eraseIdx]
    · have hmem : a ∈ t := by
        rcases List.mem_cons.mp h with h1 | h2
        · exact absurd h1.symm hx
        · exact h2
      have hr := jsIndexOf_nonneg_of_mem hmem
      have hne : jsIndexOf t a ≠ -1 := by omega
      have hxa : ¬(x == a) = true := by simp [hx]
      rw [List.erase_cons_tail hxa]
      simp only [jsIndexOf, if_neg hx, if_neg hne]
      rw [← ih hmem]
      simp only [jsSplice1]
      have h1 : ¬(jsIndexOf t a + 1 < 0) := by omega
      have h2 : ¬(jsIndexOf t a < 0) := by omega
      rw [if_neg h1, if_neg h2]
      have h3 : (jsIndexOf t a + 1).toNat = (jsIndexOf t a).toNat + 1 := by omega
      rw [h3]
      simp [List.eraseIdx]

theorem not_mem_jsSplice1_jsIndexOf {α : Type} [DecidableEq α] {l : List α} {a : α}
    (hnd : l.Nodup) : a ∉ jsSplice1 l (jsIndexOf l a) := by
  by_cases h : a ∈ l
  · rw [jsSplice1_jsIndexOf_of_mem h]
    exact hnd.not_mem_erase
  · intro hmem
    exact h ((jsSplice1_sublist l _).subset hmem)

theorem alookup_some_mem_keys {α β : Type} [DecidableEq α] {l : List (α × β)} {k : α} {v : β}
    (h : alookup l k = some v) : k ∈ l.map Prod.fst := by
  induction l with
  | nil => simp [alookup] at h
  | cons kv t ih =>
    obtain ⟨k0, v0⟩ := kv
    by_cases hk : k0 = k
    · simp [hk]
    · simp only [alookup, if_neg hk] at h
      simp [ih h]

theorem aremove_map_fst_sublist {α β : Type} [DecidableEq α] (l : List (α × β)) (a : α) :
    ((aremove l a).map Prod.fst).Sublist (l.map Prod.fst) := by
  induction l with
  | nil => simp [aremove]
  | cons kv t ih =>
    obtain ⟨k, v⟩ := kv
    by_cases hk : k = a
    · simp only [aremove, if_pos hk, List.map_cons]
      exact List.sublist_cons_of_sublist _ (List.Sublist.refl _)
    · simp only [aremove, if_neg hk, List.map_cons]
      exact List.Sublist.cons₂ _ ih

theorem aremove_nodup_fst {α β : Type} [DecidableEq α] (l : List (α × β)) (a : α)
    (hnd : (l.map Prod.fst).Nodup) : ((aremove l a).map Prod.fst).Nodup :=
  (aremove_map_fst_sublist l a).nodup hnd

@[simp] theorem getEnt_setEnt_self (w : World) (e : Nat) (d : EntityData) :
    getEnt (setEnt w e d) e = d := by
  simp [getEnt, setEnt, alookup_aset_self]

theorem getEnt_setEnt_ne (w : World) (e f : Nat) (d : EntityData) (h : f ≠ e) :
    getEnt (setEnt w e d) f = getEnt w f := by
  simp [getEnt, setEnt, alookup_aset_ne _ _ _ _ h]

/-! ## Claims C1-C4: divergences of the code from the specification -/

/-- C1: the claim states that after `dispose(immediate=true)` the old id
is no longer mapped by `entitiesById` and the entity is no longer in
`World.entities`. Evaluating the code on a world with one live entity
(id 1): `dispose` reassigns `_id` (to 2, a fresh id) BEFORE calling
`onEntityDisposed`, which looks up the new id, finds nothing, and returns
early - so the old id 1 still maps to the entity and the entity is still
in `World.entities`, even though it has been released to the entity
pool. -/
theorem C1_dispose_leaves_old_id_mapped :
    alookup c1After.entitiesById 1 = some 1 ∧
    c1After.entities = [1] ∧
    (getEnt c1After 1).id = 2 ∧
    c1After.entityPoolFree = [1] := by
  refine ⟨?_, ?_, ?_, ?_⟩ <;> rfl

/-- C2: the claim states the query-correctness invariant (entity in
`Q.entities` iff `Q.match(entity)`) holds after every
attach/add/removeComponent call. Evaluating the code: a live entity
holding `ctA` sits in the `[ctA]` query; calling
`removeComponent(ctB, true)` for the absent type `ctB` runs the unguarded
`componentTypes.splice(-1, 1)`, silently dropping `ctA`, while the query
notification is issued for `ctB` - so afterwards the entity is still in
the query's result list although it no longer matches. -/
theorem C2_query_invariant_broken :
    c2Query.entities = [1] ∧
    queryMatch c2Query (getEnt c2After 1) = false ∧
    (getEnt c2Before 1).componentTypes = [ctA] ∧
    hasComponentD (getEnt c2Before 1) ctB true = false := by
  refine ⟨?_, ?_, ?_, ?_⟩ <;> rfl

/-- C3: the claim states `removeComponent` on a type that is neither held
nor pending is a silent no-op. Evaluating the code on a live entity
holding only `ctA`, with `ctB` absent (live and pending):
`removeComponent(ctB, true)` executes `componentTypes.splice(-1, 1)`
(the indexOf result -1 is not guarded), which removes the unrelated last
entry `ctA` from `componentTypes`. -/
theorem C3_remove_absent_not_noop :
    (getEnt c3Before 1).componentTypes = [ctA] ∧
    hasComponentD (getEnt c3Before 1) ctB true = false ∧
    pendingGet (getEnt c3Before 1) "B" = none ∧
    (getEnt c3After 1).componentTypes = [] := by
  refine ⟨?_, ?_, ?_, ?_⟩ <;> rfl

/-- C4: the claim states an entity holding one system-state component,
disposed deferred, stays in `entitiesById` and is not released to the
entity pool until that component is explicitly removed, with final
disposal firing automatically when the counter reaches zero. Evaluating
the code: `dispose(false)` itself deferred-removes the system-state
component (`removeAllComponents` has no system-state exemption), dropping
the counter to 0 while the entity is still alive so the automatic ghost
disposal never fires, and the first flush releases the entity to the pool
unconditionally (the counter is even driven to -1 by the second decrement
of the drain). The entity does stay in `entitiesById`, but only because of
the C1 id-reassignment defect, and it stays there forever. -/
theorem C4_no_system_state_gating :
    (getEnt c4Before 1).numSystemStateComponents = 1 ∧
    (getEnt c4Disposed 1).componentTypesToRemove = [ctS] ∧
    c4After.entityPoolFree = [1] ∧
    alookup c4After.entitiesById 1 = some 1 ∧
    (getEnt c4After 1).numSystemStateComponents = -1 := by
  refine ⟨?_, ?_, ?_, ?_, ?_⟩ <;> rfl

/-- C7: a second `attachComponent` of an instance whose type the entity
already holds, and a second `addComponent` of that type, are complete
no-ops: the entire world state (hence `componentTypes` length, the stored
instance identity, the system-state counter, the queues and the component
pools) is unchanged, and in particular no pool acquisition happens. Both
methods return as their first statement when
`componentTypes.indexOf(Component)` is found. -/
theorem C7_attach_add_idempotent (w : World) (e : Nat) (component : CompInst)
    (props : Option (List (String × FieldVal)))
    (h : component.typ ∈ (getEnt w e).componentTypes) :
    attachComponent w e component = w ∧
    addComponent w e component.typ props = w := by
  have hidx : jsIndexOf (getEnt w e).componentTypes component.typ ≠ -1 :=
    (jsIndexOf_ne_neg_one _ _).mpr h
  constructor
  · simp only [attachComponent]
    rw [if_pos hidx]
  · simp only [addComponent]
    rw [if_pos hidx]

theorem C7_attach_add_idempotent_witness :
    instA.typ ∈ (getEnt c7World 1).componentTypes ∧
    attachComponent c7World 1 instA = c7World ∧
    addComponent c7World 1 instA.typ none = c7World :=
  ⟨by decide,
   (C7_attach_add_idempotent c7World 1 instA none (by decide)).1,
   (C7_attach_add_idempotent c7World 1 instA none (by decide)).2⟩

/-- C10: `queueComponentRemoval` pushes an entity only when
`indexOf(entity) === -1`, so a duplicate-free
`entitiesWithComponentsToRemove` stays duplicate-free and each entity
occurs at most once, which is why one flush pass calls
`processRemovedComponents` at most once per entity. -/
theorem C10_queue_no_duplicates (w : World) (e : Nat)
    (h : w.entitiesWithComponentsToRemove.Nodup) :
    (queueComponentRemoval w e).entitiesWithComponentsToRemove.Nodup ∧
    ∀ x, (queueComponentRemoval w e).entitiesWithComponentsToRemove.count x ≤ 1 := by
  have hnd : (queueComponentRemoval w e).entitiesWithComponentsToRemove.Nodup := by
    simp only [queueComponentRemoval]
    by_cases hc : jsIndexOf w.entitiesWithComponentsToRemove e = -1
    · rw [if_pos hc]
      have hne := (jsIndexOf_eq_neg_one _ _).mp hc
      simp only [List.nodup_append, List.nodup_cons, List.not_mem_nil, not_false_iff,
        List.nodup_nil, and_true, true_and]
      exact ⟨h, fun a ha => by
        simp only [List.mem_singleton]
        intro hax
        exact hne (hax ▸ ha)⟩
    · rw [if_neg hc]
      exact h
  exact ⟨hnd, fun x => List.nodup_iff_count_le_one.mp hnd x⟩

theorem C10_queue_no_duplicates_witness :
    (queueComponentRemoval (queueComponentRemoval worldEmpty 5) 5).entitiesWithComponentsToRemove.Nodup ∧
    (queueComponentRemoval (queueComponentRemoval worldEmpty 5) 5).entitiesWithComponentsToRemove.count 5 ≤ 1 :=
  ⟨(C10_queue_no_duplicates (queueComponentRemoval worldEmpty 5) 5 (by decide)).1,
   (C10_queue_no_duplicates (queueComponentRemoval worldEmpty 5) 5 (by decide)).2 5⟩

/-! ## C6: exclusion precedence in `onComponentAdded` -/

/-- Writing an entity back with only its `queries` back-reference list
changed does not affect any entity's `componentTypes`. -/
theorem getEnt_componentTypes_setEnt_queries (w : World) (x e : Nat) (qs : List Nat) :
    (getEnt (setEnt w x { getEnt w x with queries := qs }) e).componentTypes =
    (getEnt w e).componentTypes := by
  by_cases hex : e = x
  · subst hex
    simp
  · rw [getEnt_setEnt_ne _ _ _ _ hex]

theorem queryAddEntity_queries_ne (w : World) (k x qk : Nat) (h : qk ≠ k) :
    alookup (queryAddEntity w k x).queries qk = alookup w.queries qk := by
  simp only [queryAddEntity]
  split
  · rfl
  · exact alookup_aset_ne _ _ _ _ h

theorem queryRemoveEntity_queries_ne (w : World) (k x qk : Nat) (h : qk ≠ k) :
    alookup (queryRemoveEntity w k x).queries qk = alookup w.queries qk := by
  simp only [queryRemoveEntity]
  split
  · rfl
  · split
    · split
      · exact alookup_aset_ne _ _ _ _ h
      · exact alookup_aset_ne _ _ _ _ h
    · rfl

theorem queryStepAdd_queries_ne (x : Nat) (C : CompType) (w : World) (k qk : Nat)
    (h : qk ≠ k) :
    alookup (queryStepAdd x C w k).queries qk = alookup w.queries qk := by
  simp only [queryStepAdd]
  split
  · rfl
  · split
    · exact queryRemoveEntity_queries_ne w k x qk h
    · split
      · rfl
      · exact queryAddEntity_queries_ne w k x qk h

theorem queryAddEntity_componentTypes (w : World) (k x e : Nat) :
    (getEnt (queryAddEntity w k x) e).componentTypes = (getEnt w e).componentTypes := by
  simp only [queryAddEntity]
  split
  · rfl
  · exact getEnt_componentTypes_setEnt_queries w x e _

theorem queryRemoveEntity_componentTypes (w : World) (k x e : Nat) :
    (getEnt (queryRemoveEntity w k x) e).componentTypes = (getEnt w e).componentTypes := by
  simp only [queryRemoveEntity]
  split
  · rfl
  · split
    · split
      · exact (getEnt_componentTypes_setEnt_queries _ x e _).trans rfl
      · rfl
    · rfl

theorem queryStepAdd_componentTypes (x : Nat) (C : CompType) (w : World) (k e : Nat) :
    (getEnt (queryStepAdd x C w k) e).componentTypes = (getEnt w e).componentTypes := by
  simp only [queryStepAdd]
  split
  · rfl
  · split
    · exact queryRemoveEntity_componentTypes w k x e
    · split
      · rfl
      · exact queryAddEntity_componentTypes w k x e

theorem queryRemoveEntity_queries_self (w : World) (k x : Nat) (q : QueryData)
    (heq : alookup w.queries k = some q) (hx : x ∈ q.entities) :
    alookup (queryRemoveEntity w k x).queries k =
      some { q with entities := jsSplice1 q.entities (jsIndexOf q.entities x) } := by
  have hi : jsIndexOf q.entities x ≠ -1 := (jsIndexOf_ne_neg_one _ _).mpr hx
  simp only [queryRemoveEntity, heq]
  rw [if_pos hi]
  split
  · exact alookup_aset_self _ _ _
  · exact alookup_aset_self _ _ _

/-- An entity holding a type excluded by a query never matches it. -/
theorem queryMatch_false_of_excluded (q : QueryData) (d : EntityData) (C : CompType)
    (hC : C ∈ q.NotComponents) (hT : C ∈ d.componentTypes) :
    queryMatch q d = false := by
  have hany : hasAnyComponents d q.NotComponents = true := by
    simp only [hasAnyComponents, List.any_eq_true]
    refine ⟨C, hC, ?_⟩
    simp [hasComponentD, (jsIndexOf_ne_neg_one _ _).mpr hT]
  simp [queryMatch, hany]

theorem queryStepAdd_establishes (w : World) (e : Nat) (C : CompType) (qk : Nat)
    (hInv : excludedInv e C qk w) :
    ∀ q', alookup (queryStepAdd e C w qk).queries qk = some q' → e ∉ q'.entities := by
  obtain ⟨hT, hQ⟩ := hInv
  simp only [queryStepAdd]
  split
  · rename_i heq
    intro q' hq'
    rw [heq] at hq'
    cases hq'
  · rename_i q heq
    obtain ⟨hNot, hNodup⟩ := hQ q heq
    split
    · rename_i h1
      simp only [Bool.and_eq_true, decide_eq_true_eq] at h1
      have hx : e ∈ q.entities := (jsIndexOf_ne_neg_one _ _).mp h1.2
      intro q' hq'
      rw [queryRemoveEntity_queries_self w qk e q heq hx] at hq'
      injection hq' with hh
      subst hh
      exact not_mem_jsSplice1_jsIndexOf hNodup
    · split
      · rename_i h1 h2
        intro q' hq'
        rw [heq] at hq'
        injection hq' with hh
        subst hh
        simp only [Bool.and_eq_true, decide_eq_true_eq, not_and] at h1
        have hNotIdx : jsIndexOf q.NotComponents C ≠ -1 :=
          (jsIndexOf_ne_neg_one _ _).mpr hNot
        intro hmem
        exact h1 hNotIdx ((jsIndexOf_ne_neg_one _ _).mpr hmem)
      · rename_i h1 h2
        intro q' hq'
        exfalso
        apply h2
        have hm : queryMatch q (getEnt w e) = false :=
          queryMatch_false_of_excluded q (getEnt w e) C hNot hT
        simp [hm]

theorem queryStepAdd_preserves_inv (w : World) (e : Nat) (C : CompType) (qk k : Nat)
    (hInv : excludedInv e C qk w) :
    excludedInv e C qk (queryStepAdd e C w k) := by
  obtain ⟨hT, hQ⟩ := hInv
  constructor
  · rw [queryStepAdd_componentTypes]
    exact hT
  · by_cases hk : qk = k
    · subst hk
      simp only [queryStepAdd]
      split
      · exact hQ
      · rename_i q heq
        obtain ⟨hNot, hNodup⟩ := hQ q heq
        split
        · rename_i h1
          simp only [Bool.and_eq_true, decide_eq_true_eq] at h1
          have hx : e ∈ q.entities := (jsIndexOf_ne_neg_one _ _).mp h1.2
          intro q' hq'
          rw [queryRemoveEntity_queries_self w qk e q heq hx] at hq'
          injection hq' with hh
          subst hh
          exact ⟨hNot, (jsSplice1_sublist _ _).nodup hNodup⟩
        · split
          · intro q' hq'
            rw [heq] at hq'
            injection hq' with hh
            subst hh
            exact ⟨hNot, hNodup⟩
          · rename_i h1 h2
            exfalso
            apply h2
            have hm : queryMatch q (getEnt w e) = false :=
              queryMatch_false_of_excluded q (getEnt w e) C hNot hT
            simp [hm]
    · intro q' hq'
      rw [queryStepAdd_queries_ne e C w k qk hk] at hq'
      exact hQ q' hq'

theorem queryStepAdd_preserves_notmem (w : World) (e : Nat) (C : CompType) (qk k : Nat)
    (hInv : excludedInv e C qk w)
    (hP : ∀ q', alookup w.queries qk = some q' → e ∉ q'.entities) :
    ∀ q', alookup (queryStepAdd e C w k).queries qk = some q' → e ∉ q'.entities := by
  by_cases hk : qk = k
  · subst hk
    exact queryStepAdd_establishes w e C qk hInv
  · intro q' hq'
    rw [queryStepAdd_queries_ne e C w k qk hk] at hq'
    exact hP q' hq'

theorem foldl_stepAdd_inv (e : Nat) (C : CompType) (qk : Nat) (ks : List Nat) :
    ∀ w, excludedInv e C qk w →
      excludedInv e C qk (ks.foldl (queryStepAdd e C) w) := by
  induction ks with
  | nil => intro w h; exact h
  | cons k ks ih =>
    intro w h
    exact ih _ (queryStepAdd_preserves_inv w e C qk k h)

theorem foldl_stepAdd_notmem (e : Nat) (C : CompType) (qk : Nat) (ks : List Nat) :
    ∀ w, excludedInv e C qk w →
      (∀ q', alookup w.queries qk = some q' → e ∉ q'.entities) →
      ∀ q', alookup (ks.foldl (queryStepAdd e C) w).queries qk = some q' →
        e ∉ q'.entities := by
  induction ks with
  | nil => intro w _ hP; exact hP
  | cons k ks ih =>
    intro w hInv hP
    exact ih _ (queryStepAdd_preserves_inv w e C qk k hInv)
      (queryStepAdd_preserves_notmem w e C qk k hInv hP)

theorem foldl_stepAdd_notmem_of_mem (e : Nat) (C : CompType) (qk : Nat) (ks : List Nat) :
    ∀ w, excludedInv e C qk w → qk ∈ ks →
      ∀ q', alookup (ks.foldl (queryStepAdd e C) w).queries qk = some q' →
        e ∉ q'.entities := by
  induction ks with
  | nil =>
    intro w _ hmem
    simp at hmem
  | cons k ks ih =>
    intro w hInv hmem
    by_cases hk : qk = k
    · subst hk
      exact foldl_stepAdd_notmem e C qk ks _
        (queryStepAdd_preserves_inv w e C qk qk hInv)
        (queryStepAdd_establishes w e C qk hInv)
    · have hmem2 : qk ∈ ks := by
        rcases List.mem_cons.mp hmem with h1 | h2
        · exact absurd h1 hk
        · exact h2
      exact ih _ (queryStepAdd_preserves_inv w e C qk k hInv) hmem2

/-- C6: when a live entity that is in a query's result list gains a
component type in that query's `NotComponents` exclusion set, the very
next `onComponentAdded` notification leaves the entity outside that
query's result list, regardless of whether the entity still satisfies the
query's required set (no `match` condition is assumed beyond holding the
excluded type) and regardless of any other queries in the world (the
world and its query cache are arbitrary). Query.match/addEntity/
removeEntity are modelled from spec 4.3 (Query.js is not in the repo
snapshot). -/
theorem C6_exclusion_precedence (w : World) (e : Nat) (C : CompType) (qk : Nat)
    (q : QueryData) (hq : alookup w.queries qk = some q)
    (hNot : C ∈ q.NotComponents)
    (hHeld : C ∈ (getEnt w e).componentTypes)
    (hIn : e ∈ q.entities)
    (hNodup : q.entities.Nodup) :
    ∀ q', alookup (onComponentAdded w e C).queries qk = some q' →
      e ∉ q'.entities := by
  simp only [onComponentAdded]
  have hInv : excludedInv e C qk
      { w with componentCounts := countBump w.componentCounts C.name } := by
    refine ⟨hHeld, fun q' hq' => ?_⟩
    have hq'' : alookup w.queries qk = some q' := hq'
    rw [hq] at hq''
    injection hq'' with hh
    subst hh
    exact ⟨hNot, hNodup⟩
  have hmem : qk ∈ ({ w with componentCounts := countBump w.componentCounts C.name } :
      World).queries.map Prod.fst := alookup_some_mem_keys (l := w.queries) hq
  exact foldl_stepAdd_notmem_of_mem e C qk _ _ hInv hmem

theorem C6_exclusion_precedence_witness :
    alookup c6World.queries 0 = some c6Query ∧
    ctB ∈ c6Query.NotComponents ∧
    ctB ∈ (getEnt c6World 1).componentTypes ∧
    (1 : Nat) ∈ c6Query.entities ∧
    (1 : Nat) ∉ ((alookup (onComponentAdded c6World 1 ctB).queries 0).getD default).entities :=
  ⟨by decide, by decide, by decide, by decide,
   C6_exclusion_precedence c6World 1 ctB 0 c6Query (by decide) (by decide)
     (by decide) (by decide) (by decide)
     ((alookup (onComponentAdded c6World 1 ctB).queries 0).getD default)
     (by decide)⟩

theorem checkSchemaFields_eq_none_iff (l : List (String × FieldDesc)) :
    checkSchemaFields l = none ↔ ∀ kv ∈ l, goodField kv.2 = true := by
  induction l with
  | nil => simp [checkSchemaFields]
  | cons kv rest ih =>
    obtain ⟨key, prop⟩ := kv
    cases hp : prop.typeProp with
    | none => simp [checkSchemaFields, hp, goodField]
    | some t =>
      by_cases hd : t.hasDefault
      · by_cases hcl : t.hasClone
        · by_cases hcp : t.hasCopy
          · simp [checkSchemaFields, hp, hd, hcl, hcp, ih, goodField]
          · simp [checkSchemaFields, hp, hd, hcl, hcp, goodField]
        · simp [checkSchemaFields, hp, hd, hcl, goodField]
      · simp [checkSchemaFields, hp, hd, goodField]

/-- C8: (a) registering a name already present is a warning-only no-op
returning the registry, counts and pools unchanged, even before any
validation; (b) for an unregistered name, registration throws exactly
when the class has no schema or some schema field lacks a type or its
type lacks a default, clone or copy; (c) a valid registration records
the class, zeroes its count, and stores a pool entry - a fresh per-type
pool when the argument is omitted, the supplied pool otherwise, and no
pool exactly when the argument is the literal `false`. -/
theorem C8_registerComponent_validation (w : RegWorld) (C : CCDesc) (objectPool : PoolArg) :
    ((alookup w.componentTypes C.name).isSome →
      registerComponent w C objectPool = .ok w) ∧
    ((alookup w.componentTypes C.name).isNone →
      ((∃ msg, registerComponent w C objectPool = .error msg) ↔
        (C.schema = none ∨ ∃ kv ∈ C.schema.getD [], goodField kv.2 = false))) ∧
    (∀ schema, (alookup w.componentTypes C.name).isNone → C.schema = some schema →
      (∀ kv ∈ schema, goodField kv.2 = true) →
      registerComponent w C objectPool = .ok
        { componentTypes := aset w.componentTypes C.name C,
          componentCounts := aset w.componentCounts C.name (some 0),
          componentPools := aset w.componentPools C.name (poolRule objectPool) }) := by
  refine ⟨fun hreg => ?_, fun hreg => ?_, fun schema hreg hsch hgood => ?_⟩
  · simp [registerComponent, hreg]
  · have hreg' : ¬(alookup w.componentTypes C.name).isSome = true := by
      simp [Option.isNone_iff_eq_none.mp hreg]
    constructor
    · intro ⟨msg, hmsg⟩
      by_contra hcon
      push_neg at hcon
      obtain ⟨hs, hfields⟩ := hcon
      cases hcs : C.schema with
      | none => exact hs hcs
      | some schema =>
        have hall : ∀ kv ∈ schema, goodField kv.2 = true := by
          intro kv hkv
          have := hfields kv (by rw [hcs]; exact hkv)
          simp only [Bool.not_eq_false] at this
          exact this
        have hchk : checkSchemaFields schema = none :=
          (checkSchemaFields_eq_none_iff schema).mpr hall
        rw [registerComponent, if_neg hreg', hcs] at hmsg
        simp [hchk] at hmsg
    · intro h
      rcases h with hs | ⟨kv, hkv, hbad⟩
      · refine ⟨"Component has no schema property.", ?_⟩
        rw [registerComponent, if_neg hreg', hs]
      · cases hcs : C.schema with
        | none =>
          refine ⟨"Component has no schema property.", ?_⟩
          rw [registerComponent, if_neg hreg', hcs]
        | some schema =>
          rw [hcs] at hkv
          simp only [Option.getD_some] at hkv
          have hchk : checkSchemaFields schema ≠ none := by
            intro hno
            have := (checkSchemaFields_eq_none_iff schema).mp hno kv hkv
            rw [this] at hbad
            cases hbad
          cases hmsg : checkSchemaFields schema with
          | none => exact absurd hmsg hchk
          | some msg =>
            refine ⟨msg, ?_⟩
            rw [registerComponent, if_neg hreg', hcs]
            simp [hmsg]
  · have hreg' : ¬(alookup w.componentTypes C.name).isSome = true := by
      simp [Option.isNone_iff_eq_none.mp hreg]
    have hchk : checkSchemaFields schema = none :=
      (checkSchemaFields_eq_none_iff schema).mpr hgood
    rw [registerComponent, if_neg hreg', hsch]
    simp [hchk]

theorem C8_registerComponent_validation_witness :
    (alookup c8Empty.componentTypes "Position").isNone ∧
    registerComponent c8Empty c8Position PoolArg.undef = .ok
      { componentTypes := aset c8Empty.componentTypes "Position" c8Position,
        componentCounts := aset c8Empty.componentCounts "Position" (some 0),
        componentPools := aset c8Empty.componentPools "Position" (poolRule PoolArg.undef) } :=
  ⟨by decide,
   (C8_registerComponent_validation c8Empty c8Position PoolArg.undef).2.2
     (c8Position.schema.getD []) (by decide) (by decide) (by decide)⟩

theorem entCore_setEnt_queries (w : World) (x e : Nat) (qs : List Nat) :
    entCore (getEnt (setEnt w x { getEnt w x with queries := qs }) e) =
    entCore (getEnt w e) := by
  by_cases hex : e = x
  · subst hex
    simp [entCore]
  · rw [getEnt_setEnt_ne _ _ _ _ hex]

theorem queryAddEntity_entCore (w : World) (k x e : Nat) :
    entCore (getEnt (queryAddEntity w k x) e) = entCore (getEnt w e) := by
  simp only [queryAddEntity]
  split
  · rfl
  · exact entCore_setEnt_queries w x e _

theorem queryRemoveEntity_entCore (w : World) (k x e : Nat) :
    entCore (getEnt (queryRemoveEntity w k x) e) = entCore (getEnt w e) := by
  simp only [queryRemoveEntity]
  split
  · rfl
  · split
    · split
      · exact (entCore_setEnt_queries _ x e _).trans rfl
      · rfl
    · rfl

theorem queryStepRemove_entCore (x : Nat) (C : CompType) (w : World) (k e : Nat) :
    entCore (getEnt (queryStepRemove x C w k) e) = entCore (getEnt w e) := by
  simp only [queryStepRemove]
  split
  · rfl
  · split
    · exact queryAddEntity_entCore w k x e
    · split
      · exact queryRemoveEntity_entCore w k x e
      · rfl

theorem foldl_queryStepRemove_entCore (x : Nat) (C : CompType) (e : Nat) (ks : List Nat) :
    ∀ w, entCore (getEnt (ks.foldl (queryStepRemove x C) w) e) = entCore (getEnt w e) := by
  induction ks with
  | nil => intro w; rfl
  | cons k ks ih =>
    intro w
    exact (ih _).trans (queryStepRemove_entCore x C w k e)

theorem onRemoveComponent_entCore (w : World) (x : Nat) (C : CompType) (e : Nat) :
    entCore (getEnt (onRemoveComponent w x C) e) = entCore (getEnt w e) := by
  simp only [onRemoveComponent]
  exact foldl_queryStepRemove_entCore x C e _ _

theorem instDispose_getEnt (w : World) (c : CompInst) (e : Nat) :
    getEnt (instDispose w c) e = getEnt w e := by
  simp only [instDispose]
  split
  · rfl
  · rfl

theorem queueComponentRemoval_getEnt (w : World) (x e : Nat) :
    getEnt (queueComponentRemoval w x) e = getEnt w e := by
  simp only [queueComponentRemoval]
  split
  · rfl
  · rfl

/-- A record update that rewrites `alive` to its current value is the
identity. -/
theorem entity_with_alive_self (d : EntityData) (h : d.alive = false) :
    ({ d with alive := false } : EntityData) = d := by
  cases d
  simp at h
  simp [h]

/-- `dispose(immediately = falsy)` on a not-alive entity only queues the
entity for later disposal: the entity store is untouched. -/
theorem dispose_not_alive_getEnt (fuel : Nat) (w : World) (e x : Nat)
    (h : (getEnt w e).alive = false) :
    getEnt (dispose (fuel + 1) w e false) x = getEnt w x := by
  simp only [dispose, h, Bool.false_eq_true, if_false]
  rw [entity_with_alive_self _ h]
  show getEnt (setEnt w e (getEnt w e)) x = getEnt w x
  by_cases hex : x = e
  · subst hex
    simp
  · rw [getEnt_setEnt_ne _ _ _ _ hex]

theorem onRemoveComponent_components (w : World) (x : Nat) (C : CompType) (e : Nat) :
    (getEnt (onRemoveComponent w x C) e).components = (getEnt w e).components :=
  congrArg (fun t => t.2.2.1) (onRemoveComponent_entCore w x C e)

theorem onRemoveComponent_componentsToRemove (w : World) (x : Nat) (C : CompType) (e : Nat) :
    (getEnt (onRemoveComponent w x C) e).componentsToRemove = (getEnt w e).componentsToRemove :=
  congrArg (fun t => t.2.2.2.1) (onRemoveComponent_entCore w x C e)

theorem onRemoveComponent_componentTypesToRemove (w : World) (x : Nat) (C : CompType) (e : Nat) :
    (getEnt (onRemoveComponent w x C) e).componentTypesToRemove = (getEnt w e).componentTypesToRemove :=
  congrArg (fun t => t.2.2.2.2.1) (onRemoveComponent_entCore w x C e)

theorem onRemoveComponent_componentTypes (w : World) (x : Nat) (C : CompType) (e : Nat) :
    (getEnt (onRemoveComponent w x C) e).componentTypes = (getEnt w e).componentTypes :=
  congrArg (fun t => t.2.1) (onRemoveComponent_entCore w x C e)

theorem onRemoveComponent_alive (w : World) (x : Nat) (C : CompType) (e : Nat) :
    (getEnt (onRemoveComponent w x C) e).alive = (getEnt w e).alive :=
  congrArg (fun t => t.2.2.2.2.2.1) (onRemoveComponent_entCore w x C e)

theorem removeComponent_deferred_live (fuel : Nat) (w : World) (e : Nat) (T : CompType)
    (c : CompInst)
    (hAlive : (getEnt w e).alive = true)
    (hInst : alookup (getEnt w e).components T.name = some c)
    (hNoPend : pendingGet (getEnt w e) T.name = none) :
    (getEnt (removeComponent (fuel + 1) w e T false) e).components =
        aremove (getEnt w e).components T.name ∧
    (getEnt (removeComponent (fuel + 1) w e T false) e).componentsToRemove =
        aset (getEnt w e).componentsToRemove T.name (some c) ∧
    (getEnt (removeComponent (fuel + 1) w e T false) e).componentTypesToRemove =
        (getEnt w e).componentTypesToRemove ++ [T] ∧
    (getEnt (removeComponent (fuel + 1) w e T false) e).componentTypes =
        jsSplice1 (getEnt w e).componentTypes (jsIndexOf (getEnt w e).componentTypes T) ∧
    (getEnt (removeComponent (fuel + 1) w e T false) e).alive = true := by
  have hIsNone : (pendingGet (getEnt w e) T.name).isNone = true := by
    rw [hNoPend]; rfl
  simp only [removeComponent]
  rw [if_pos hIsNone, hInst]
  simp only [hAlive, eq_self_iff_true, if_true, Bool.false_eq_true, if_false,
    instDispose_getEnt, queueComponentRemoval_getEnt, onRemoveComponent_alive,
    onRemoveComponent_components, onRemoveComponent_componentsToRemove,
    onRemoveComponent_componentTypesToRemove, onRemoveComponent_componentTypes,
    getEnt_setEnt_self, Bool.not_true, Bool.and_false]
  by_cases hss : T.isSystemStateComponent = true
  · simp only [hss, eq_self_iff_true, if_true, getEnt_setEnt_self,
      queueComponentRemoval_getEnt]
    exact ⟨trivial, trivial, trivial, trivial, trivial⟩
  · rw [if_neg hss]
    simp only [getEnt_setEnt_self, queueComponentRemoval_getEnt]
    exact ⟨trivial, trivial, trivial, trivial, trivial⟩

theorem removeComponent_pending_immediate (fuel : Nat) (w : World) (e : Nat) (Tl : CompType)
    (hPend : (pendingGet (getEnt w e) Tl.name).isSome = true)
    (hNotMem : Tl ∉ (getEnt w e).componentTypesToRemove) :
    (getEnt (removeComponent (fuel + 2) w e Tl true) e).components =
        (getEnt w e).components ∧
    (getEnt (removeComponent (fuel + 2) w e Tl true) e).componentsToRemove =
        aremove (getEnt w e).componentsToRemove Tl.name ∧
    (getEnt (removeComponent (fuel + 2) w e Tl true) e).componentTypesToRemove =
        (getEnt w e).componentTypesToRemove ∧
    (getEnt (removeComponent (fuel + 2) w e Tl true) e).alive = (getEnt w e).alive := by
  have hNotNone : ¬((pendingGet (getEnt w e) Tl.name).isNone = true) := by
    intro hc
    rw [Option.isNone_iff_eq_none] at hc
    rw [hc] at hPend
    simp at hPend
  have hidx : jsIndexOf (getEnt w e).componentTypesToRemove Tl = -1 :=
    (jsIndexOf_eq_neg_one _ _).mpr hNotMem
  show (getEnt (removeComponent (fuel + 1 + 1) w e Tl true) e).components = _ ∧ _ ∧ _ ∧ _
  simp only [removeComponent]
  rw [if_neg hNotNone]
  have halive_of : ∀ hg : (decide ((getEnt w e).numSystemStateComponents - 1 = 0) &&
      !(getEnt w e).alive) = true, (getEnt w e).alive = false := by
    intro hg
    rcases (Bool.and_eq_true _ _).mp hg with ⟨h1, h2⟩
    cases hal : (getEnt w e).alive
    · rfl
    · rw [hal] at h2
      cases h2
  cases hcomp : alookup (getEnt w e).components Tl.name with
  | none =>
    simp only [instDispose_getEnt, hPend, eq_self_iff_true, if_true, getEnt_setEnt_self,
      hidx, ne_eq, not_true_eq_false, if_false]
    by_cases hss : Tl.isSystemStateComponent = true
    · rw [if_pos hss]
      by_cases hg : (decide ((getEnt w e).numSystemStateComponents - 1 = 0) &&
          !(getEnt w e).alive) = true
      · rw [if_pos hg]
        rw [dispose_not_alive_getEnt fuel _ e e
          (by simp only [getEnt_setEnt_self]; exact halive_of hg)]
        simp only [getEnt_setEnt_self]
        exact ⟨trivial, trivial, trivial, trivial⟩
      · rw [if_neg hg]
        simp only [getEnt_setEnt_self]
        exact ⟨trivial, trivial, trivial, trivial⟩
    · rw [if_neg hss]
      simp only [getEnt_setEnt_self]
      exact ⟨trivial, trivial, trivial, trivial⟩
  | some cx =>
    simp only [instDispose_getEnt, hPend, eq_self_iff_true, if_true, getEnt_setEnt_self,
      hidx, ne_eq, not_true_eq_false, if_false]
    by_cases hss : Tl.isSystemStateComponent = true
    · rw [if_pos hss]
      by_cases hg : (decide ((getEnt w e).numSystemStateComponents - 1 = 0) &&
          !(getEnt w e).alive) = true
      · rw [if_pos hg]
        rw [dispose_not_alive_getEnt fuel _ e e
          (by simp only [getEnt_setEnt_self]; exact halive_of hg)]
        simp only [getEnt_setEnt_self]
        exact ⟨trivial, trivial, trivial, trivial⟩
      · rw [if_neg hg]
        simp only [getEnt_setEnt_self]
        exact ⟨trivial, trivial, trivial, trivial⟩
    · rw [if_neg hss]
      simp only [getEnt_setEnt_self]
      exact ⟨trivial, trivial, trivial, trivial⟩

theorem processRemovedComponents_drains :
    ∀ (n fuel : Nat) (w : World) (e : Nat),
      (getEnt w e).componentTypesToRemove.length = n →
      pendSync (getEnt w e) →
      n + 2 ≤ fuel →
      (getEnt (processRemovedComponents fuel w e) e).components =
          (getEnt w e).components ∧
      (getEnt (processRemovedComponents fuel w e) e).componentTypesToRemove = [] ∧
      ∀ name, pendingGet (getEnt (processRemovedComponents fuel w e) e) name = none := by
  intro n
  induction n with
  | zero =>
    intro fuel w e hlen hsync hfuel
    obtain ⟨f, rfl⟩ : ∃ f, fuel = f + 1 := ⟨fuel - 1, by omega⟩
    have hnil : (getEnt w e).componentTypesToRemove = [] :=
      List.length_eq_zero.mp hlen
    have hred : processRemovedComponents (f + 1) w e = w := by
      simp only [processRemovedComponents, hnil]
      rfl
    rw [hred]
    refine ⟨rfl, hnil, fun name => ?_⟩
    have h1 := (hsync.1 name)
    rw [hnil] at h1
    simp only [List.map_nil, List.not_mem_nil, iff_false] at h1
    exact Option.not_isSome_iff_eq_none.mp h1
  | succ n ih =>
    intro fuel w e hlen hsync hfuel
    obtain ⟨f, rfl⟩ : ∃ f, fuel = f + 1 := ⟨fuel - 1, by omega⟩
    obtain ⟨f2, rfl⟩ : ∃ f2, f = f2 + 2 := ⟨f - 2, by omega⟩
    have hne : (getEnt w e).componentTypesToRemove ≠ [] := by
      intro hc
      rw [hc] at hlen
      cases hlen
    set Tl := (getEnt w e).componentTypesToRemove.getLast hne with hTl
    have hlast : (getEnt w e).componentTypesToRemove.getLast? = some Tl :=
      List.getLast?_eq_getLast _ hne
    have hsplit : (getEnt w e).componentTypesToRemove.dropLast ++ [Tl] =
        (getEnt w e).componentTypesToRemove :=
      List.dropLast_append_getLast hne
    -- names decomposition
    have hnames : ((getEnt w e).componentTypesToRemove.map CompType.name) =
        ((getEnt w e).componentTypesToRemove.dropLast.map CompType.name) ++ [Tl.name] := by
      conv_lhs => rw [← hsplit]
      simp
    have hnodupNames := hsync.2.1
    rw [hnames] at hnodupNames
    rw [List.nodup_append] at hnodupNames
    have hTlNotIn : Tl.name ∉ (getEnt w e).componentTypesToRemove.dropLast.map CompType.name := by
      intro hc
      exact hnodupNames.2.2 hc (List.mem_singleton_self _)
    -- step 1: the pop
    have hstep : processRemovedComponents (f2 + 2 + 1) w e =
        processRemovedComponents (f2 + 2)
          (removeComponent (f2 + 2)
            (setEnt w e { getEnt w e with
              componentTypesToRemove := (getEnt w e).componentTypesToRemove.dropLast })
            e Tl true) e := by
      simp only [processRemovedComponents, hlast]
    rw [hstep]
    set w1 : World := setEnt w e { getEnt w e with
      componentTypesToRemove := (getEnt w e).componentTypesToRemove.dropLast } with hw1
    have hw1e : getEnt w1 e = { getEnt w e with
        componentTypesToRemove := (getEnt w e).componentTypesToRemove.dropLast } := by
      rw [hw1]
      exact getEnt_setEnt_self _ _ _
    -- removeComponent on the popped type
    have hPend : (pendingGet (getEnt w1 e) Tl.name).isSome = true := by
      rw [hw1e]
      show (pendingGet (getEnt w e) Tl.name).isSome = true  -- pendingGet only reads componentsToRemove
      refine (hsync.1 Tl.name).mpr ?_
      rw [← hsplit]
      simp
    have hNotMem : Tl ∉ (getEnt w1 e).componentTypesToRemove := by
      rw [hw1e]
      show Tl ∉ (getEnt w e).componentTypesToRemove.dropLast
      intro hc
      exact hTlNotIn (List.mem_map_of_mem CompType.name hc)
    obtain ⟨hc1, hc2, hc3, _⟩ := removeComponent_pending_immediate f2 w1 e Tl hPend hNotMem
    set w2 : World := removeComponent (f2 + 2) w1 e Tl true with hw2
    -- state after the removal step
    have hw2comps : (getEnt w2 e).components = (getEnt w e).components := by
      rw [hc1, hw1e]
    have hw2pend : (getEnt w2 e).componentsToRemove =
        aremove (getEnt w e).componentsToRemove Tl.name := by
      rw [hc2, hw1e]
    have hw2list : (getEnt w2 e).componentTypesToRemove =
        (getEnt w e).componentTypesToRemove.dropLast := by
      rw [hc3, hw1e]
    -- invariants for the tail
    have hlen2 : (getEnt w2 e).componentTypesToRemove.length = n := by
      rw [hw2list, List.length_dropLast, hlen]
      rfl
    have hsync2 : pendSync (getEnt w2 e) := by
      refine ⟨fun name => ?_, ?_, ?_⟩
      · by_cases hnm : name = Tl.name
        · subst hnm
          have hlk : alookup (getEnt w2 e).componentsToRemove Tl.name = none := by
            rw [hw2pend]
            exact alookup_aremove_self _ _ hsync.2.2
          have hpg : pendingGet (getEnt w2 e) Tl.name = none := by
            simp [pendingGet, hlk]
          rw [hw2list, hpg]
          simp only [Option.isSome_none, Bool.false_eq_true, false_iff]
          exact fun hc => hTlNotIn hc
        · have hlk : alookup (getEnt w2 e).componentsToRemove name =
              alookup (getEnt w e).componentsToRemove name := by
            rw [hw2pend]
            exact alookup_aremove_ne _ _ _ hnm hsync.2.2
          have hpg : pendingGet (getEnt w2 e) name = pendingGet (getEnt w e) name := by
            simp only [pendingGet, hlk]
          rw [hw2list, hpg]
          rw [hsync.1 name, hnames]
          simp only [List.mem_append, List.mem_singleton]
          constructor
          · intro h
            rcases h with h | h
            · exact h
            · exact absurd h hnm
          · intro h
            exact Or.inl h
      · rw [hw2list]
        have : ((getEnt w e).componentTypesToRemove.dropLast.map CompType.name).Sublist
            ((getEnt w e).componentTypesToRemove.map CompType.name) :=
          (List.dropLast_sublist _).map _
        exact this.nodup hsync.2.1
      · rw [hw2pend]
        exact aremove_nodup_fst _ _ hsync.2.2
    have hfuel2 : n + 2 ≤ f2 + 2 := by omega
    obtain ⟨hr1, hr2, hr3⟩ := ih (f2 + 2) w2 e hlen2 hsync2 hfuel2
    exact ⟨hr1.trans hw2comps, hr2, hr3⟩

theorem aset_map_fst {α β : Type} [DecidableEq α] (l : List (α × β)) (a : α) (b : β) :
    (aset l a b).map Prod.fst =
      if a ∈ l.map Prod.fst then l.map Prod.fst else l.map Prod.fst ++ [a] := by
  induction l with
  | nil => simp [aset]
  | cons kv t ih =>
    obtain ⟨k, v⟩ := kv
    by_cases hk : k = a
    · subst hk
      simp [aset]
    · simp only [aset, if_neg hk, List.map_cons, ih]
      by_cases hmem : a ∈ t.map Prod.fst
      · rw [if_pos hmem, if_pos (by simp [hmem])]
      · rw [if_neg hmem, if_neg (by simp [hmem, Ne.symm hk])]
        rfl

theorem aset_nodup_fst {α β : Type} [DecidableEq α] (l : List (α × β)) (a : α) (b : β)
    (hnd : (l.map Prod.fst).Nodup) : ((aset l a b).map Prod.fst).Nodup := by
  rw [aset_map_fst]
  by_cases hmem : a ∈ l.map Prod.fst
  · rw [if_pos hmem]
    exact hnd
  · rw [if_neg hmem]
    simp only [List.nodup_append, List.nodup_cons, List.not_mem_nil, not_false_iff,
      List.nodup_nil, and_true, true_and]
    exact ⟨hnd, fun x hx => by
      simp only [List.mem_singleton]
      intro hax
      exact hmem (hax ▸ hx)⟩

/-- C5: for a live entity holding component type `T` with instance `c`
(and arbitrary other components and pending removals, with the reachable
no-duplicate bookkeeping), after `removeComponent(T, immediate=false)`:
`hasComponent(T)` is false and `getComponent(T, includeRemoved=true)`
still returns `c`; after `processRemovedComponents()` then runs,
`getComponent(T, includeRemoved=true)` returns `undefined` (none). -/
theorem C5_deferred_removal_visibility (fuel : Nat) (w : World) (e : Nat) (T : CompType)
    (c : CompInst)
    (hAlive : (getEnt w e).alive = true)
    (hHeld : T ∈ (getEnt w e).componentTypes)
    (hndCT : (getEnt w e).componentTypes.Nodup)
    (hndC : ((getEnt w e).components.map Prod.fst).Nodup)
    (hInst : alookup (getEnt w e).components T.name = some c)
    (hNoPend : pendingGet (getEnt w e) T.name = none)
    (hSync : pendSync (getEnt w e))
    (hFuel : (getEnt w e).componentTypesToRemove.length + 3 ≤ fuel) :
    hasComponentD (getEnt (removeComponent fuel w e T false) e) T false = false ∧
    getComponent (removeComponent fuel w e T false) e T true = some c ∧
    getComponent (processRemovedComponents fuel
      (removeComponent fuel w e T false) e) e T true = none := by
  obtain ⟨f, rfl⟩ : ∃ f, fuel = f + 1 := ⟨fuel - 1, by omega⟩
  obtain ⟨h1, h2, h3, h4, _⟩ := removeComponent_deferred_live f w e T c hAlive hInst hNoPend
  have hTnotin : T ∉ (getEnt (removeComponent (f + 1) w e T false) e).componentTypes := by
    rw [h4, jsSplice1_jsIndexOf_of_mem hHeld]
    exact hndCT.not_mem_erase
  have hidx : jsIndexOf (getEnt (removeComponent (f + 1) w e T false) e).componentTypes T = -1 :=
    (jsIndexOf_eq_neg_one _ _).mpr hTnotin
  have hlk : alookup (getEnt (removeComponent (f + 1) w e T false) e).components T.name = none := by
    rw [h1]
    exact alookup_aremove_self _ _ hndC
  have hpd : pendingGet (getEnt (removeComponent (f + 1) w e T false) e) T.name = some c := by
    simp [pendingGet, h2, alookup_aset_self]
  have hTnameNotPend : T.name ∉ (getEnt w e).componentTypesToRemove.map CompType.name := by
    intro hc
    have := (hSync.1 T.name).mpr hc
    rw [hNoPend] at this
    cases this
  have hSync2 : pendSync (getEnt (removeComponent (f + 1) w e T false) e) := by
    refine ⟨fun name => ?_, ?_, ?_⟩
    · rw [h3]
      by_cases hnm : name = T.name
      · subst hnm
        rw [hpd]
        simp
      · have hl2 : alookup (getEnt (removeComponent (f + 1) w e T false) e).componentsToRemove name =
            alookup (getEnt w e).componentsToRemove name := by
          rw [h2]
          exact alookup_aset_ne _ _ _ _ hnm
        have hpg2 : pendingGet (getEnt (removeComponent (f + 1) w e T false) e) name =
            pendingGet (getEnt w e) name := by
          simp only [pendingGet, hl2]
        rw [hpg2, hSync.1 name]
        simp only [List.map_append, List.map_cons, List.map_nil, List.mem_append,
          List.mem_singleton]
        constructor
        · intro h
          exact Or.inl h
        · intro h
          rcases h with h | h
          · exact h
          · exact absurd h hnm
    · rw [h3]
      simp only [List.map_append, List.map_cons, List.map_nil]
      rw [List.nodup_append]
      refine ⟨hSync.2.1, List.nodup_singleton _, ?_⟩
      intro x hx
      simp only [List.mem_singleton]
      intro hax
      exact hTnameNotPend (hax ▸ hx)
    · rw [h2]
      exact aset_nodup_fst _ _ _ hSync.2.2
  have hlen2 : (getEnt (removeComponent (f + 1) w e T false) e).componentTypesToRemove.length =
      (getEnt w e).componentTypesToRemove.length + 1 := by
    rw [h3]
    simp
  obtain ⟨hd1, hd2, hd3⟩ := processRemovedComponents_drains
    ((getEnt w e).componentTypesToRemove.length + 1) (f + 1)
    (removeComponent (f + 1) w e T false) e hlen2 hSync2 (by omega)
  refine ⟨?_, ?_, ?_⟩
  · simp [hasComponentD, hidx]
  · simp [getComponent, hlk, hpd]
  · have hlk3 : alookup (getEnt (processRemovedComponents (f + 1)
        (removeComponent (f + 1) w e T false) e) e).components T.name = none := by
      rw [hd1]
      exact hlk
    simp [getComponent, hlk3, hd3 T.name]

theorem C5_deferred_removal_visibility_witness :
    hasComponentD (getEnt (removeComponent 3 c5World 1 ctA false) 1) ctA false = false ∧
    getComponent (removeComponent 3 c5World 1 ctA false) 1 ctA true = some instA ∧
    getComponent (processRemovedComponents 3
      (removeComponent 3 c5World 1 ctA false) 1) 1 ctA true = none :=
  C5_deferred_removal_visibility 3 c5World 1 ctA instA (by decide) (by decide) (by decide)
    (by decide) (by decide) (by decide)
    ⟨fun name => by
      have h2 : (getEnt c5World 1).componentsToRemove = [] := by rfl
      have h3 : (getEnt c5World 1).componentTypesToRemove = [] := by rfl
      have h1 : pendingGet (getEnt c5World 1) name = none := by
        simp [pendingGet, h2, alookup]
      rw [h1, h3]
      simp,
     by decide, by decide⟩
    (by decide)

theorem fieldValueEq_refl (v : FieldVal) : fieldValueEq v v = true := by
  cases v <;> simp [fieldValueEq]

theorem ptClone_counter_mono (k : PTKind) (v : FieldVal) (n : Nat) :
    n ≤ (ptClone k v n).2 := by
  cases k <;> cases v <;> simp [ptClone, cloneValue, cloneArray, cloneJSON]

theorem cloneFields_counter_mono (schema : List (String × PTKind)) :
    ∀ (fields : List (String × FieldVal)) (n : Nat),
      n ≤ (cloneFields schema fields n).2 := by
  induction schema with
  | nil => intro fields n; simp [cloneFields]
  | cons hd rest ih =>
    intro fields n
    obtain ⟨key, k⟩ := hd
    simp only [cloneFields]
    cases hl : alookup fields key with
    | none => exact ih fields n
    | some v =>
      have h1 := ptClone_counter_mono k v n
      have h2 := ih fields (ptClone k v n).2
      calc n ≤ (ptClone k v n).2 := h1
        _ ≤ (cloneFields rest fields (ptClone k v n).2).2 := h2

theorem compClone_counter_mono (c : CompInst) (n : Nat) : n ≤ (compClone c n).2 := by
  simp only [compClone]
  have := cloneFields_counter_mono c.typ.schema c.fields (n + 1)
  omega

theorem cloneFields_lookup (schema : List (String × PTKind)) :
    ∀ (fields : List (String × FieldVal)) (n : Nat) (key : String) (k : PTKind)
      (v : FieldVal),
      (schema.map Prod.fst).Nodup → (key, k) ∈ schema → alookup fields key = some v →
      ∃ p, n ≤ p ∧ (ptClone k v p).2 ≤ (cloneFields schema fields n).2 ∧
        alookup (cloneFields schema fields n).1 key = some (ptClone k v p).1 := by
  induction schema with
  | nil =>
    intro fields n key k v _ hmem _
    simp at hmem
  | cons hd rest ih =>
    intro fields n key k v hnd hmem hv
    obtain ⟨key0, k0⟩ := hd
    simp only [List.map_cons, List.nodup_cons] at hnd
    by_cases hk : key0 = key
    · subst hk
      have hk0 : k0 = k := by
        rcases List.mem_cons.mp hmem with h1 | h2
        · exact (Prod.mk.injEq _ _ _ _).mp h1.symm |>.2
        · exact absurd (List.mem_map_of_mem Prod.fst h2) hnd.1
      subst hk0
      refine ⟨n, le_refl n, ?_, ?_⟩
      · simp only [cloneFields, hv]
        exact cloneFields_counter_mono rest fields (ptClone k0 v n).2
      · simp only [cloneFields, hv]
        simp [alookup]
    · have hmem2 : (key, k) ∈ rest := by
        rcases List.mem_cons.mp hmem with h1 | h2
        · exact absurd ((Prod.mk.injEq _ _ _ _).mp h1.symm |>.1) hk
        · exact h2
      simp only [cloneFields]
      cases hl : alookup fields key0 with
      | none => exact ih fields n key k v hnd.2 hmem2 hv
      | some v0 =>
        obtain ⟨p, hp1, hp2, hp3⟩ := ih fields (ptClone k0 v0 n).2 key k v hnd.2 hmem2 hv
        refine ⟨p, le_trans (ptClone_counter_mono k0 v0 n) hp1, hp2, ?_⟩
        simp [alookup, hk, hp3]

theorem compClone_lookup (c : CompInst) (n : Nat) (key : String) (k : PTKind) (v : FieldVal)
    (hnd : (c.typ.schema.map Prod.fst).Nodup) (hmem : (key, k) ∈ c.typ.schema)
    (hv : alookup c.fields key = some v) :
    ∃ p, n + 1 ≤ p ∧ (ptClone k v p).2 ≤ (compClone c n).2 ∧
      alookup (compClone c n).1.fields key = some (ptClone k v p).1 := by
  obtain ⟨p, hp1, hp2, hp3⟩ := cloneFields_lookup c.typ.schema c.fields (n + 1) key k v hnd hmem hv
  exact ⟨p, hp1, hp2, hp3⟩

theorem entityCopyLoop_lookup_stable (comps : List (String × CompInst)) :
    ∀ (d : EntityData) (n : Nat) (name : String),
      name ∉ comps.map Prod.fst →
      alookup (entityCopyLoop comps d n).1.components name = alookup d.components name := by
  induction comps with
  | nil => intro d n name _; rfl
  | cons hd rest ih =>
    intro d n name hnot
    obtain ⟨name0, sc0⟩ := hd
    simp only [List.map_cons, List.mem_cons] at hnot
    push_neg at hnot
    simp only [entityCopyLoop]
    rw [ih _ _ _ hnot.2]
    exact alookup_aset_ne _ _ _ _ hnot.1

theorem entityCopyLoop_counter_mono (comps : List (String × CompInst)) :
    ∀ (d : EntityData) (n : Nat), n ≤ (entityCopyLoop comps d n).2 := by
  induction comps with
  | nil => intro d n; exact le_refl n
  | cons hd rest ih =>
    intro d n
    obtain ⟨name0, sc0⟩ := hd
    simp only [entityCopyLoop]
    exact le_trans (compClone_counter_mono sc0 n) (ih _ _)

theorem entityCopyLoop_lookup (comps : List (String × CompInst)) :
    ∀ (d : EntityData) (n : Nat) (name : String) (sc : CompInst),
      (comps.map Prod.fst).Nodup → alookup comps name = some sc →
      ∃ m, n ≤ m ∧ (compClone sc m).2 ≤ (entityCopyLoop comps d n).2 ∧
        alookup (entityCopyLoop comps d n).1.components name = some (compClone sc m).1 := by
  induction comps with
  | nil =>
    intro d n name sc _ hl
    simp [alookup] at hl
  | cons hd rest ih =>
    intro d n name sc hnd hl
    obtain ⟨name0, sc0⟩ := hd
    simp only [List.map_cons, List.nodup_cons] at hnd
    by_cases hk : name0 = name
    · subst hk
      have hsc : sc0 = sc := by
        simp only [alookup, if_pos rfl] at hl
        exact Option.some.inj hl
      subst hsc
      refine ⟨n, le_refl n, ?_, ?_⟩
      · simp only [entityCopyLoop]
        exact entityCopyLoop_counter_mono rest _ _
      · simp only [entityCopyLoop]
        rw [entityCopyLoop_lookup_stable rest _ _ _ hnd.1]
        exact alookup_aset_self _ _ _
    · have hl2 : alookup rest name = some sc := by
        simpa [alookup, hk] using hl
      simp only [entityCopyLoop]
      obtain ⟨m, hm1, hm2, hm3⟩ := ih _ (compClone sc0 n).2 name sc hnd.2 hl2
      exact ⟨m, le_trans (compClone_counter_mono sc0 n) hm1, hm2, hm3⟩

/-- C9: after `B.copy(A)` (Entity.copy clones every source component into
the destination), cloning the corresponding component of both entities
and comparing the field for any schema entry yields: always value-equal
data; for a field of the Object PropType the identical reference (the
documented aliasing of `cloneValue`); for a field of the Array or JSON
PropTypes structurally equal data under two distinct freshly allocated
references; and for Number/Boolean/String fields the very same primitive
value (primitives carry no reference identity, so no mutable state is
shared). `Component.clone` is modelled from the spec (Component.js is not
in the repo snapshot); the per-kind clone operations are the ones of
src/PropTypes.js. -/
theorem C9_roundtrip_copy (A B0 : EntityData) (n0 : Nat) (name : String) (c : CompInst)
    (key : String) (k : PTKind) (v : FieldVal)
    (hndA : (A.components.map Prod.fst).Nodup)
    (hc : alookup A.components name = some c)
    (hndS : (c.typ.schema.map Prod.fst).Nodup)
    (hkey : (key, k) ∈ c.typ.schema)
    (hv : alookup c.fields key = some v)
    (hWT : fieldWT k v = true) :
    ∃ cb va2 vb2,
      alookup (entityCopy B0 A n0).1.components name = some cb ∧
      alookup (compClone c (entityCopy B0 A n0).2).1.fields key = some va2 ∧
      alookup (compClone cb (compClone c (entityCopy B0 A n0).2).2).1.fields key = some vb2 ∧
      fieldValueEq va2 vb2 = true ∧
      (k = PTKind.obj → va2 = vb2) ∧
      ((k = PTKind.arr ∨ k = PTKind.json) →
        ∃ ra rb, va2 = FieldVal.ref ra ∧ vb2 = FieldVal.ref rb ∧
          ra.addr ≠ rb.addr ∧ ra.data = rb.data) ∧
      ((k = PTKind.num ∨ k = PTKind.bool ∨ k = PTKind.str) → va2 = v ∧ vb2 = v) := by
  obtain ⟨m, hm1, hm2, hm3⟩ := entityCopyLoop_lookup A.components B0 n0 name c hndA hc
  obtain ⟨r, hr1, hr2, hr3⟩ := compClone_lookup c m key k v hndS hkey hv
  obtain ⟨p, hp1, hp2, hp3⟩ := compClone_lookup c (entityCopy B0 A n0).2 key k v hndS hkey hv
  obtain ⟨q, hq1, hq2, hq3⟩ := compClone_lookup (compClone c m).1
    (compClone c (entityCopy B0 A n0).2).2 key k ((ptClone k v r).1) hndS hkey hr3
  have hpq : p < q := by
    have h1 := ptClone_counter_mono k v p
    omega
  have hpqne : p ≠ q := Nat.ne_of_lt hpq
  cases k with
  | num =>
    cases v with
    | prim pv =>
      refine ⟨(compClone c m).1, FieldVal.prim pv, FieldVal.prim pv, hm3, hp3, hq3,
        fieldValueEq_refl _, ?_, ?_, ?_⟩
      · intro h
        cases h
      · intro h
        rcases h with h | h <;> cases h
      · intro _
        exact ⟨rfl, rfl⟩
    | ref r0 => cases hWT
  | bool =>
    cases v with
    | prim pv =>
      refine ⟨(compClone c m).1, FieldVal.prim pv, FieldVal.prim pv, hm3, hp3, hq3,
        fieldValueEq_refl _, ?_, ?_, ?_⟩
      · intro h
        cases h
      · intro h
        rcases h with h | h <;> cases h
      · intro _
        exact ⟨rfl, rfl⟩
    | ref r0 => cases hWT
  | str =>
    cases v with
    | prim pv =>
      refine ⟨(compClone c m).1, FieldVal.prim pv, FieldVal.prim pv, hm3, hp3, hq3,
        fieldValueEq_refl _, ?_, ?_, ?_⟩
      · intro h
        cases h
      · intro h
        rcases h with h | h <;> cases h
      · intro _
        exact ⟨rfl, rfl⟩
    | ref r0 => cases hWT
  | obj =>
    refine ⟨(compClone c m).1, v, v, hm3, hp3, hq3,
      fieldValueEq_refl _, ?_, ?_, ?_⟩
    · intro _
      rfl
    · intro h
      rcases h with h | h <;> cases h
    · intro h
      rcases h with h | h | h <;> cases h
  | arr =>
    cases v with
    | prim pv => cases hWT
    | ref r0 =>
      refine ⟨(compClone c m).1, FieldVal.ref ⟨p, r0.data⟩, FieldVal.ref ⟨q, r0.data⟩,
        hm3, hp3, hq3, by simp [fieldValueEq], ?_, ?_, ?_⟩
      · intro h
        cases h
      · intro _
        exact ⟨⟨p, r0.data⟩, ⟨q, r0.data⟩, rfl, rfl, hpqne, rfl⟩
      · intro h
        rcases h with h | h | h <;> cases h
  | json =>
    cases v with
    | prim pv => cases hWT
    | ref r0 =>
      refine ⟨(compClone c m).1, FieldVal.ref ⟨p, r0.data⟩, FieldVal.ref ⟨q, r0.data⟩,
        hm3, hp3, hq3, by simp [fieldValueEq], ?_, ?_, ?_⟩
      · intro h
        cases h
      · intro _
        exact ⟨⟨p, r0.data⟩, ⟨q, r0.data⟩, rfl, rfl, hpqne, rfl⟩
      · intro h
        rcases h with h | h | h <;> cases h

theorem C9_roundtrip_copy_witness :
    ∃ cb va2 vb2,
      alookup (entityCopy c9B c9A 100).1.components "Data" = some cb ∧
      alookup (compClone c9Inst (entityCopy c9B c9A 100).2).1.fields "a" = some va2 ∧
      alookup (compClone cb (compClone c9Inst (entityCopy c9B c9A 100).2).2).1.fields "a" =
        some vb2 ∧
      fieldValueEq va2 vb2 = true ∧
      (PTKind.arr = PTKind.obj → va2 = vb2) ∧
      ((PTKind.arr = PTKind.arr ∨ PTKind.arr = PTKind.json) →
        ∃ ra rb, va2 = FieldVal.ref ra ∧ vb2 = FieldVal.ref rb ∧
          ra.addr ≠ rb.addr ∧ ra.data = rb.data) ∧
      ((PTKind.arr = PTKind.num ∨ PTKind.arr = PTKind.bool ∨ PTKind.arr = PTKind.str) →
        va2 = FieldVal.ref { addr := 41, data := JsonData.jarr [PrimVal.pnum 1, PrimVal.pnum 2] } ∧
        vb2 = FieldVal.ref { addr := 41, data := JsonData.jarr [PrimVal.pnum 1, PrimVal.pnum 2] }) :=
  C9_roundtrip_copy c9A c9B 100 "Data" c9Inst "a" PTKind.arr
    (FieldVal.ref { addr := 41, data := JsonData.jarr [PrimVal.pnum 1, PrimVal.pnum 2] })
    (by decide) (by decide) (by decide) (by decide) (by decide) (by decide)

end Ecsy
